import Mathlib

/-!
Verification development for the storage core of the rmdb relational engine:
the buffer pool manager (`src/storage/buffer_pool_manager.cpp`), the LRU
replacer (`src/replacer/lru_replacer.cpp`), the record file handle
(`src/record/rm_file_handle.cpp`) and the record scanner
(`src/record/rm_scan.cpp`).

The C++ sources are shallowly embedded as pure Lean functions over explicit
state records.  Machine `int` fields are modelled as `Int`, byte buffers as
`List Int`, the fixed frame array as a function `Nat → Frame`, and the
`std::unordered_map` page table as an association list (its iteration order
only matters for `flush_all_pages`, which touches nothing but dirty flags).
Disk I/O (`read_page` / `write_page`) transfers byte contents that no claim
depends on, so those calls are recorded as comments at the points where the
source performs them; `allocate_page` outcomes are passed in as a parameter
so that both success and failure of the disk collaborator are covered.
-/

namespace RmdbVerify

/-! ### Generic list helpers -/

/-- In-place update of a list at an index; out-of-range indices leave the
list unchanged (used to model writes into fixed-size arrays/pages). -/
def listSet {α : Type} : List α → Nat → α → List α
  | [], _, _ => []
  | _ :: t, 0, v => v :: t
  | h :: t, n + 1, v => h :: listSet t n v

/-! ### LRU replacer (`lru_replacer.cpp`)

`LRUhash_` always holds exactly the elements of `LRUlist_`: `unpin` inserts
into both (guarded by hash membership, so the list never holds duplicates),
`pin` erases from both, and `victim` erases from both.  The registry is
therefore modelled by the list alone: the reverse scan in `victim` finds the
last list element (the least recently unpinned one), and `LRUlist_.remove`
deletes every occurrence of it. -/

/-- `LRUReplacer::victim`: pop the least-recently-unpinned frame, or `none`
when the registry is empty. -/
def lruVictim (l : List Nat) : Option Nat × List Nat :=
  match l.getLast? with
  | none => (none, l)
  | some f => (some f, l.filter (fun x => x ≠ f))

/-- `LRUReplacer::pin`: remove the frame from the registry if present. -/
def lruPin (l : List Nat) (f : Nat) : List Nat :=
  l.filter (fun x => x ≠ f)

/-- `LRUReplacer::unpin`: insert the frame as most-recently-evictable when it
is not already tracked and the registry has spare capacity. -/
def lruUnpin (l : List Nat) (maxSize : Nat) (f : Nat) : List Nat :=
  if f ∉ l ∧ l.length < maxSize then f :: l else l

/-! ### Buffer pool manager (`buffer_pool_manager.cpp`) -/

/-- `PageId`: (file descriptor, page number). -/
structure PageId where
  fd : Int
  page_no : Int
  deriving DecidableEq, Repr

/-- One frame of the pool: the `Page` object's metadata.  `reset_memory`
only clears the byte buffer (not modelled), so it leaves these fields
untouched. -/
structure Frame where
  id : PageId
  pin_count : Int
  is_dirty : Bool
  deriving DecidableEq, Repr

instance : Inhabited Frame := ⟨⟨⟨-1, -1⟩, 0, false⟩⟩

/-- Association-list lookup for the page table. -/
def lookupK : List (PageId × Nat) → PageId → Option Nat
  | [], _ => none
  | (k, v) :: t, pid => if k = pid then some v else lookupK t pid

/-- Association-list erase for the page table (`page_table_.erase`). -/
def eraseK : List (PageId × Nat) → PageId → List (PageId × Nat)
  | [], _ => []
  | (k, v) :: t, pid => if k = pid then eraseK t pid else (k, v) :: eraseK t pid

/-- `page_table_[pid] = f`: overwrite-or-insert.  The physical position of
an entry in an `unordered_map` is immaterial; only the key→value function
and the entry set matter. -/
def setK (t : List (PageId × Nat)) (pid : PageId) (f : Nat) : List (PageId × Nat) :=
  (pid, f) :: eraseK t pid

/-- Buffer pool manager state: fixed frame array, page table, free-frame
list and the LRU replacer registry. -/
structure BPM where
  frames : Nat → Frame
  page_table : List (PageId × Nat)
  free_list : List Nat
  lru_list : List Nat
  lru_max : Nat

/-- Write one frame of the fixed frame array. -/
def updFrame (g : Nat → Frame) (i : Nat) (v : Frame) : Nat → Frame :=
  fun j => if j = i then v else g j

/-- Initial pool of `n` frames: every frame unpinned and unassigned, every
frame index on the free list, page table and replacer empty.  Modelled from
the spec: the constructor lives outside `src/`; §3 of the spec fixes the
initial free-frame list as all frames (pin count 0, unassigned). -/
def initBPM (n : Nat) : BPM :=
  { frames := fun _ => default
    page_table := []
    free_list := List.range n
    lru_list := []
    lru_max := n }

/-- `BufferPoolManager::find_victim_page`: prefer the free list, else ask
the replacer. -/
def findVictimPage (s : BPM) : Option Nat × BPM :=
  match s.free_list with
  | f :: rest => (some f, { s with free_list := rest })
  | [] =>
    match lruVictim s.lru_list with
    | (some f, l) => (some f, { s with lru_list := l })
    | (none, _) => (none, s)

/-- `BufferPoolManager::update_page`: write back a dirty victim
(`disk_manager_->write_page`, byte contents not modelled), clear its dirty
flag, move the page-table entry from the old page to the new one, reset the
frame's bytes and install the new id. -/
def updatePage (s : BPM) (f : Nat) (newPid : PageId) : BPM :=
  let fr := s.frames f
  -- if is_dirty: write_page(fd, page_no, data, PAGE_SIZE); is_dirty = false
  let fr1 := if fr.is_dirty then { fr with is_dirty := false } else fr
  let t1 := setK (eraseK s.page_table fr.id) newPid f
  -- reset_memory() clears data_ only; then id_ = new_page_id
  { s with frames := updFrame s.frames f { fr1 with id := newPid }
           page_table := t1 }

/-- `BufferPoolManager::fetch_page`: on a hit, bump the pin count and make
the frame non-evictable; on a miss, obtain a victim, write it back if dirty,
remap the page table, read the requested page from disk
(`disk_manager_->read_page`, bytes not modelled) and pin it. -/
def fetchPage (s : BPM) (pid : PageId) : Option Nat × BPM :=
  match lookupK s.page_table pid with
  | some f =>
    let fr := s.frames f
    (some f, { s with frames := updFrame s.frames f { fr with pin_count := fr.pin_count + 1 }
                      lru_list := lruPin s.lru_list f })
  | none =>
    match findVictimPage s with
    | (none, _) => (none, s)
    | (some f, s1) =>
      let s2 := updatePage s1 f pid
      -- read_page(pid.fd, pid.page_no, data, PAGE_SIZE)
      let fr := s2.frames f
      (some f, { s2 with lru_list := lruPin s2.lru_list f
                         frames := updFrame s2.frames f { fr with pin_count := fr.pin_count + 1 } })

/-- `BufferPoolManager::unpin_page`: fail when the page is absent or its
pin count is not positive; otherwise decrement the pin count, hand the frame
to the replacer when it reaches 0, and set the dirty flag to `is_dirty`. -/
def unpinPage (s : BPM) (pid : PageId) (is_dirty : Bool) : Bool × BPM :=
  match lookupK s.page_table pid with
  | none => (false, s)
  | some f =>
    let fr := s.frames f
    if fr.pin_count ≤ 0 then (false, s)
    else
      let newPin := fr.pin_count - 1
      let lru1 := if newPin = 0 then lruUnpin s.lru_list s.lru_max f else s.lru_list
      (true, { s with frames := updFrame s.frames f { fr with pin_count := newPin, is_dirty := is_dirty }
                      lru_list := lru1 })

/-- `BufferPoolManager::flush_page`: fail when absent, else write the frame
to disk (bytes not modelled) and clear the dirty flag. -/
def flushPage (s : BPM) (pid : PageId) : Bool × BPM :=
  match lookupK s.page_table pid with
  | none => (false, s)
  | some f =>
    let fr := s.frames f
    -- write_page(pid.fd, pid.page_no, data, PAGE_SIZE)
    (true, { s with frames := updFrame s.frames f { fr with is_dirty := false } })

/-- `BufferPoolManager::new_page`: obtain a victim frame first, then ask
the disk collaborator for a fresh page number (`allocResult`, with
`INVALID_PAGE_ID = -1` on failure); on allocation failure return `none`
without restoring the victim frame.  On success remap the page table, reset
the frame, pin it with count 1 and return it. -/
def newPage (s : BPM) (fd : Int) (allocResult : Int) : Option Nat × BPM :=
  match findVictimPage s with
  | (none, _) => (none, s)
  | (some f, s1) =>
    -- page_no = disk_manager_->allocate_page(fd)
    if allocResult = -1 then (none, s1)
    else
      let pid : PageId := ⟨fd, allocResult⟩
      let s2 := updatePage s1 f pid
      let fr := s2.frames f
      (some f, { s2 with lru_list := lruPin s2.lru_list f
                         frames := updFrame s2.frames f { fr with pin_count := 1 } })

/-- `BufferPoolManager::delete_page`: succeed vacuously when absent; fail
when pinned; otherwise write back, drop the page-table entry, reset the
frame bytes and return the frame to the free list. -/
def deletePage (s : BPM) (pid : PageId) : Bool × BPM :=
  match lookupK s.page_table pid with
  | none => (true, s)
  | some f =>
    let fr := s.frames f
    if fr.pin_count ≠ 0 then (false, s)
    else
      -- write_page(pid.fd, pid.page_no, data, PAGE_SIZE); reset_memory()
      (true, { s with page_table := eraseK s.page_table pid
                      free_list := s.free_list ++ [f] })

/-- `BufferPoolManager::flush_all_pages`: iterate the page table and clear
the dirty flag of every frame holding a page of file `fd` (each one is also
written to disk; bytes not modelled). -/
def flushAllPages (s : BPM) (fd : Int) : BPM :=
  let step : (Nat → Frame) → PageId × Nat → Nat → Frame := fun g e =>
    if e.1.fd = fd then updFrame g e.2 { g e.2 with is_dirty := false } else g
  { s with frames := s.page_table.foldl step s.frames }

/-- The pin count the pool currently holds for `pid` (0 when the page is
not resident). -/
def pinCountOf (s : BPM) (pid : PageId) : Int :=
  match lookupK s.page_table pid with
  | some f => (s.frames f).pin_count
  | none => 0

/-- One buffer pool call on a fixed page: a fetch or an unpin. -/
inductive PoolOp where
  | fetchOp : PoolOp
  | unpinOp : Bool → PoolOp

/-- Run a sequence of fetch/unpin calls on the single page `pid`,
returning the final state together with the number of successful fetches
and successful unpins. -/
def runPoolOps (pid : PageId) : BPM → List PoolOp → BPM × Nat × Nat
  | s, [] => (s, 0, 0)
  | s, .fetchOp :: rest =>
    let r := fetchPage s pid
    let out := runPoolOps pid r.2 rest
    (out.1, (if r.1.isSome then 1 else 0) + out.2.1, out.2.2)
  | s, .unpinOp d :: rest =>
    let r := unpinPage s pid d
    let out := runPoolOps pid r.2 rest
    (out.1, out.2.1, (if r.1 then 1 else 0) + out.2.2)

/-- States reachable from a freshly constructed pool through the public
interface, with adversarial page ids, dirty flags and disk allocation
outcomes. -/
inductive PoolReachable : BPM → Prop
  | init (n : Nat) : PoolReachable (initBPM n)
  | fetch {s} (pid : PageId) : PoolReachable s → PoolReachable (fetchPage s pid).2
  | unpin {s} (pid : PageId) (d : Bool) : PoolReachable s → PoolReachable (unpinPage s pid d).2
  | newp {s} (fd allocResult : Int) : PoolReachable s → PoolReachable (newPage s fd allocResult).2
  | del {s} (pid : PageId) : PoolReachable s → PoolReachable (deletePage s pid).2
  | flush {s} (pid : PageId) : PoolReachable s → PoolReachable (flushPage s pid).2
  | flushAll {s} (fd : Int) : PoolReachable s → PoolReachable (flushAllPages s fd)

/-- Pool-wide invariant: free-listed and replacer-registered frames are
unpinned, no page-table entry points at a free-listed frame, the free list
has no duplicates, every page-table entry agrees with the id stored in its
frame, and pin counts are never negative. -/
def PoolInv (s : BPM) : Prop :=
  (∀ f ∈ s.free_list, (s.frames f).pin_count = 0) ∧
  (∀ f ∈ s.lru_list, (s.frames f).pin_count = 0) ∧
  (∀ pid f, lookupK s.page_table pid = some f → f ∉ s.free_list) ∧
  s.free_list.Nodup ∧
  (∀ pid f, lookupK s.page_table pid = some f → (s.frames f).id = pid) ∧
  (∀ f, 0 ≤ (s.frames f).pin_count)

/-! ### Record file handle (`rm_file_handle.cpp`)

The record layer is embedded over an explicit file state: the in-memory
file header, the list of data pages (each a page header, slot bitmap and
fixed-size slots) and, mirroring the buffer pool interaction, one pin
counter per page.  Page numbers are normalised so that the first data page
is number 0 (`RM_FIRST_RECORD_PAGE` and the reserved file-header page are
defined in headers outside `src/`); `RM_NO_PAGE = -1` is the free-list
sentinel.  Whether `buffer_pool_manager_->fetch_page` can supply a page is
a parameter `ok : Int → Bool` (it returns `nullptr` e.g. when every frame
is pinned); `buffer_pool_manager_->new_page` availability is the parameter
`newOk`. -/

/-- `RM_NO_PAGE`: end-of-free-list sentinel. -/
def RM_NO_PAGE : Int := -1

/-- Record id: (page number, slot number). -/
structure Rid where
  page_no : Int
  slot_no : Int
  deriving DecidableEq, Repr

/-- `RmPageHdr`: occupied-slot count and free-list link of one page. -/
structure RmPageHdr where
  next_free_page_no : Int
  num_records : Int
  deriving DecidableEq, Repr

/-- One data page: header, slot bitmap, and the record slots (byte lists). -/
structure RmPage where
  hdr : RmPageHdr
  bitmap : List Bool
  slots : List (List Int)
  deriving DecidableEq, Repr

instance : Inhabited RmPage := ⟨⟨⟨-1, 0⟩, [], []⟩⟩

/-- `RmFileHdr`: in-memory file header. -/
structure RmFileHdr where
  record_size : Nat
  num_records_per_page : Int
  num_pages : Int
  first_free_page_no : Int
  deriving DecidableEq, Repr

/-- Record-file state: header, data pages, and the buffer pool pin count of
each data page. -/
structure RmFile where
  hdr : RmFileHdr
  pages : List RmPage
  pins : List Int
  deriving DecidableEq, Repr

instance : Inhabited RmFile := ⟨⟨⟨0, 0, 0, -1⟩, [], []⟩⟩

/-- `Bitmap::is_set` at an `int` index (out-of-range reads yield `false`;
in-range use is the only behaviour defined by the source). -/
def bitGet (bm : List Bool) (i : Int) : Bool :=
  if 0 ≤ i then bm.getD i.toNat false else false

/-- `Bitmap::reset` at an `int` index (out-of-range writes are undefined
behaviour in the source and are modelled as no-ops). -/
def bitReset (bm : List Bool) (i : Int) : List Bool :=
  if 0 ≤ i then listSet bm i.toNat false else bm

/-- `memcpy(slot, buf, record_size)`: overwrite the first `record_size`
bytes of a slot. -/
def writeBytes (slot : List Int) (buf : List Int) (rs : Nat) : List Int :=
  buf.take rs ++ slot.drop rs

/-- Increment the pin count of page `i`. -/
def bumpPin (ps : List Int) (i : Nat) : List Int :=
  listSet ps i (ps.getD i 0 + 1)

/-- Decrement the pin count of page `i` (an `unpin_page` call). -/
def dropPin (ps : List Int) (i : Nat) : List Int :=
  listSet ps i (ps.getD i 0 - 1)

/-- `RmFileHandle::fetch_page_handle`: a page number outside
`[0, num_pages)` yields an empty handle, as does a failed
`buffer_pool_manager_->fetch_page`; a successful fetch pins the page and
yields a handle on it (returned as the page index). -/
def fetchPageHandle (ok : Int → Bool) (s : RmFile) (page_no : Int) :
    Option Nat × RmFile :=
  if page_no < 0 ∨ s.hdr.num_pages ≤ page_no then (none, s)
  else if ok page_no then (some page_no.toNat, { s with pins := bumpPin s.pins page_no.toNat })
  else (none, s)

/-- `RmFileHandle::get_record`: fetch the page, fail on an empty handle or
an out-of-range slot, else copy `record_size` bytes out of the slot.  No
path unpins the page (faithful to the source). -/
def getRecord (ok : Int → Bool) (s : RmFile) (rid : Rid) :
    Option (List Int) × RmFile :=
  match fetchPageHandle ok s rid.page_no with
  | (none, s1) => (none, s1)
  | (some i, s1) =>
    if s.hdr.num_records_per_page ≤ rid.slot_no ∨ rid.slot_no < 0 then (none, s1)
    else
      let slot := (s1.pages.getD i default).slots.getD rid.slot_no.toNat []
      (some (slot.take s1.hdr.record_size), s1)

/-- `RmFileHandle::create_new_page_handle`: ask the buffer pool for a new
page (zero-filled by `update_page`'s `reset_memory`, hence an all-clear
bitmap and zeroed slots), set `next_free_page_no = RM_NO_PAGE` and
`num_records = 0`, bump `num_pages`.  The new page comes back pinned with
count 1.  Note the source does not link the new page into
`first_free_page_no`. -/
def createNewPageHandle (newOk : Bool) (s : RmFile) : Option Nat × RmFile :=
  if newOk then
    let cap := s.hdr.num_records_per_page.toNat
    let pg : RmPage :=
      { hdr := { next_free_page_no := RM_NO_PAGE, num_records := 0 }
        bitmap := List.replicate cap false
        slots := List.replicate cap (List.replicate s.hdr.record_size 0) }
    (some s.pages.length,
      { s with hdr := { s.hdr with num_pages := s.hdr.num_pages + 1 }
               pages := s.pages ++ [pg]
               pins := s.pins ++ [1] })
  else (none, s)

/-- `RmFileHandle::create_page_handle`: take the head of the free-page list
when there is one, else create a brand-new page. -/
def createPageHandle (ok : Int → Bool) (newOk : Bool) (s : RmFile) :
    Option Nat × RmFile :=
  if s.hdr.first_free_page_no = RM_NO_PAGE then createNewPageHandle newOk s
  else fetchPageHandle ok s s.hdr.first_free_page_no

/-- First unset bit of the bitmap below `cap`: the linear scan
`for (slot_no = 0; slot_no < cap; slot_no++) if (!is_set) break` of
`insert_record`, returning `none` when the loop runs off the end. -/
def firstUnset (bm : List Bool) (cap : Int) : Option Nat :=
  (List.range cap.toNat).find? (fun k => !(bm.getD k false))

/-- Body of `RmFileHandle::insert_record` after the page handle has been
obtained: find the first free slot (returning `Rid{-1,-1}` without
unpinning when the page reports itself full), copy the payload in, set the
bitmap bit, bump `num_records`, advance `first_free_page_no` past the page
when it just became full, and unpin the page dirty. -/
def insertIntoPage (s : RmFile) (i : Nat) (buf : List Int) : Rid × RmFile :=
  let cap := s.hdr.num_records_per_page
  let page := s.pages.getD i default
  match firstUnset page.bitmap cap with
  | none => (⟨-1, -1⟩, s)
  | some slot =>
    let page1 :=
      { page with slots := listSet page.slots slot (writeBytes (page.slots.getD slot []) buf s.hdr.record_size)
                  bitmap := listSet page.bitmap slot true
                  hdr := { page.hdr with num_records := page.hdr.num_records + 1 } }
    let s1 := { s with pages := listSet s.pages i page1 }
    let s2 :=
      if page1.hdr.num_records = cap then
        { s1 with hdr := { s1.hdr with first_free_page_no := page1.hdr.next_free_page_no } }
      else s1
    -- unpin_page(page_id, true)
    let s3 := { s2 with pins := dropPin s2.pins i }
    (⟨(i : Int), (slot : Int)⟩, s3)

/-- `RmFileHandle::insert_record(buf)`: obtain a page with a free slot via
the free-page-list protocol and insert into it.  When `create_page_handle`
yields an empty handle the source dereferences `page_handle.bitmap` without
a check; that null-handle access is the `.error` outcome. -/
def insertRecord (ok : Int → Bool) (newOk : Bool) (s : RmFile) (buf : List Int) :
    Except Unit (Rid × RmFile) :=
  match createPageHandle ok newOk s with
  | (none, _) => .error ()
  | (some i, s1) => .ok (insertIntoPage s1 i buf)

/-- `RmFileHandle::insert_record(rid, buf)`: overwrite-insert at a
caller-chosen rid; return silently on an empty handle or a slot number at
or above capacity (without unpinning in the latter case); otherwise copy
the payload and unpin dirty.  The bitmap is not touched. -/
def insertRecordAt (ok : Int → Bool) (s : RmFile) (rid : Rid) (buf : List Int) : RmFile :=
  match fetchPageHandle ok s rid.page_no with
  | (none, s1) => s1
  | (some i, s1) =>
    if s.hdr.num_records_per_page ≤ rid.slot_no then s1
    else
      let page := s1.pages.getD i default
      let newSlot := writeBytes (page.slots.getD rid.slot_no.toNat []) buf s1.hdr.record_size
      let page1 := { page with slots := listSet page.slots rid.slot_no.toNat newSlot }
      { s1 with pages := listSet s1.pages i page1, pins := dropPin s1.pins i }

/-- Body of `RmFileHandle::delete_record` once the page handle has been
obtained: return silently on a slot number at or above capacity (without
unpinning); otherwise clear the bitmap bit, decrement `num_records`, unpin
dirty, and if the page just went from full to one free slot, re-link it at
the head of the free-page list (`release_page_handle`). -/
def deleteFromPage (s1 : RmFile) (i : Nat) (rid : Rid) : RmFile :=
  if s1.hdr.num_records_per_page ≤ rid.slot_no then s1
  else
    let page := s1.pages.getD i default
    let page1 := { page with bitmap := bitReset page.bitmap rid.slot_no
                             hdr := { page.hdr with num_records := page.hdr.num_records - 1 } }
    let s2 := { s1 with pages := listSet s1.pages i page1 }
    -- unpin_page(page_id, true)
    let s3 := { s2 with pins := dropPin s2.pins i }
    if page1.hdr.num_records = s1.hdr.num_records_per_page - 1 then
      -- release_page_handle: next_free = first_free; first_free = page_no
      let page2 := { page1 with hdr := { page1.hdr with next_free_page_no := s3.hdr.first_free_page_no } }
      { s3 with pages := listSet s3.pages i page2
                hdr := { s3.hdr with first_free_page_no := (i : Int) } }
    else s3

/-- `RmFileHandle::delete_record`: return silently on an empty page handle,
else run the delete body on the fetched (pinned) page. -/
def deleteRecord (ok : Int → Bool) (s : RmFile) (rid : Rid) : RmFile :=
  match fetchPageHandle ok s rid.page_no with
  | (none, s1) => s1
  | (some i, s1) => deleteFromPage s1 i rid

/-- `RmFileHandle::update_record`: return silently on an empty handle or a
slot number at or above capacity (without unpinning in the latter case);
otherwise overwrite the slot bytes in place and unpin dirty. -/
def updateRecord (ok : Int → Bool) (s : RmFile) (rid : Rid) (buf : List Int) : RmFile :=
  match fetchPageHandle ok s rid.page_no with
  | (none, s1) => s1
  | (some i, s1) =>
    if s.hdr.num_records_per_page ≤ rid.slot_no then s1
    else
      let page := s1.pages.getD i default
      let newSlot := writeBytes (page.slots.getD rid.slot_no.toNat []) buf s1.hdr.record_size
      let page1 := { page with slots := listSet page.slots rid.slot_no.toNat newSlot }
      { s1 with pages := listSet s1.pages i page1, pins := dropPin s1.pins i }

/-! ### Record scan (`rm_scan.cpp`)

`RmScan::next` and `RmScan::is_end` read `page_handle.bitmap` resp.
`page_handle.page_hdr->num_records` through whatever handle
`fetch_page_handle` returned, without a null check; when the handle is
empty that access is a null dereference, modelled as the `.error ()`
outcome.  Neither function ever unpins the pages it fetches. -/

/-- Inner slot loop of `RmScan::next`: starting from slot `slot_no`, the
first set bit strictly above it and below `cap`
(`while (slot_no < cap - 1) { slot_no++; if (is_set) return; }`). -/
def innerFind (bm : List Bool) (cap : Int) (slot_no : Int) : Option Nat :=
  (List.range cap.toNat).find? (fun k => slot_no < (k : Int) && bm.getD k false)

/-- Outer page loop of `RmScan::next`, with fuel bounding the number of
remaining pages.  A fetch of the current page that yields an empty handle
leads to a bitmap read through the null handle as soon as the inner loop
body runs (`slot_no < cap - 1`). -/
def scanNextAux (ok : Int → Bool) (s : RmFile) (page_no slot_no : Int) :
    Nat → Except Unit (Rid × RmFile)
  | 0 => .ok (⟨page_no, slot_no⟩, s)
  | fuel + 1 =>
    if page_no < s.hdr.num_pages then
      let cap := s.hdr.num_records_per_page
      match fetchPageHandle ok s page_no with
      | (none, s1) =>
        if slot_no < cap - 1 then .error ()
        else scanNextAux ok s1 (page_no + 1) (-1) fuel
      | (some i, s1) =>
        match innerFind (s1.pages.getD i default).bitmap cap slot_no with
        | some slot => .ok (⟨page_no, (slot : Int)⟩, s1)
        | none => scanNextAux ok s1 (page_no + 1) (-1) fuel
    else .ok (⟨page_no, slot_no⟩, s)

/-- `RmScan::next`: advance the cursor to the next occupied slot, or past
the last page. -/
def scanNext (ok : Int → Bool) (s : RmFile) (r : Rid) : Except Unit (Rid × RmFile) :=
  scanNextAux ok s r.page_no r.slot_no (s.hdr.num_pages - r.page_no).toNat

/-- `RmScan::is_end`: true when the cursor has run past the last page, or
when the slot number is at or above the current page's `num_records`; the
latter reads `num_records` through a freshly fetched handle without a null
check. -/
def scanIsEnd (ok : Int → Bool) (s : RmFile) (r : Rid) : Except Unit (Bool × RmFile) :=
  if s.hdr.num_pages ≤ r.page_no then .ok (true, s)
  else
    match fetchPageHandle ok s r.page_no with
    | (none, _) => .error ()
    | (some i, s1) => .ok (decide ((s1.pages.getD i default).hdr.num_records ≤ r.slot_no), s1)

/-- `RmScan::RmScan`: the constructor starts at `(first data page, -1)` and
immediately calls `next()`. -/
def scanInit (ok : Int → Bool) (s : RmFile) : Except Unit (Rid × RmFile) :=
  scanNext ok s ⟨0, -1⟩

/-- The cursor rid of a scan step, discarding the pin side effects
(`none` when the step dereferenced a null handle). -/
def scanRidOf (e : Except Unit (Rid × RmFile)) : Option Rid :=
  match e with
  | .ok x => some x.1
  | .error _ => none

/-- The boolean of an `is_end` step, discarding the pin side effects. -/
def scanEndOf (e : Except Unit (Bool × RmFile)) : Option Bool :=
  match e with
  | .ok x => some x.1
  | .error _ => none

/-- A fetch oracle that always succeeds (buffer pool never exhausted). -/
def okT : Int → Bool := fun _ => true

/-- An empty record file with the given record size and per-page capacity
(`num_pages = 0`, free-page list empty). -/
def emptyRm (rs : Nat) (cap : Int) : RmFile :=
  ⟨⟨rs, cap, 0, RM_NO_PAGE⟩, [], []⟩

/-- Well-formed record file: the header page count matches the page list,
the head of the free-page list is the sentinel or a valid page number, and
every page has a bitmap and slot array of exactly the per-page capacity
with slots of exactly `record_size` bytes. -/
def WF (s : RmFile) : Prop :=
  s.hdr.num_pages = s.pages.length ∧
  (s.hdr.first_free_page_no = RM_NO_PAGE ∨
    0 ≤ s.hdr.first_free_page_no ∧ s.hdr.first_free_page_no < s.hdr.num_pages) ∧
  ∀ pg ∈ s.pages,
    pg.bitmap.length = s.hdr.num_records_per_page.toNat ∧
    pg.slots.length = s.hdr.num_records_per_page.toNat ∧
    ∀ sl ∈ pg.slots, sl.length = s.hdr.record_size

/-- The pages reachable from `first_free_page_no` by following
`next_free_page_no` links (walk bounded by the page count). -/
def freeReachableAux (s : RmFile) : Int → Nat → List Int
  | _, 0 => []
  | p, fuel + 1 =>
    if p = RM_NO_PAGE then []
    else p :: freeReachableAux s ((s.pages.getD p.toNat default).hdr.next_free_page_no) fuel

/-- The free-page list of a record file, as the list of page numbers
reachable from the file header. -/
def freeReachable (s : RmFile) : List Int :=
  freeReachableAux s s.hdr.first_free_page_no (s.pages.length + 1)

/-- Record-layer states reachable from an empty file by `insert_record`
and by `delete_record` restricted to occupied slots (rids whose bitmap bit
is set), with the buffer pool always able to supply pages. -/
inductive RmReach (rs : Nat) (cap : Int) : RmFile → Prop
  | init : RmReach rs cap (emptyRm rs cap)
  | step_ins {s r s'} (buf : List Int) :
      RmReach rs cap s → insertRecord okT true s buf = .ok (r, s') → RmReach rs cap s'
  | step_del {s} (rid : Rid) :
      RmReach rs cap s → 0 ≤ rid.slot_no →
      bitGet ((s.pages.getD rid.page_no.toNat default).bitmap) rid.slot_no = true →
      RmReach rs cap (deleteRecord okT s rid)

/-- Unwrap a non-crashing `insert_record` outcome (rid and new state);
a null-handle dereference yields the failure rid and an untouched default
state. -/
def insOut (e : Except Unit (Rid × RmFile)) : Rid × RmFile :=
  match e with
  | .ok x => x
  | .error _ => (⟨-1, -1⟩, default)

/-- A two-page file with occupied slots `{0, 2}` on page 0 and `{1}` on
page 1 (`records_per_page = 3`, `record_size = 1`), the free-page list
linking page 0 → page 1. -/
def scanFixture : RmFile :=
  ⟨⟨1, 3, 2, 0⟩,
   [⟨⟨1, 2⟩, [true, false, true], [[1], [0], [2]]⟩,
    ⟨⟨-1, 1⟩, [false, true, false], [[0], [3], [0]]⟩],
   [0, 0]⟩

/-- Capacity-accounting invariant of the record layer: the header page
count matches the page list, and every page's `num_records` equals the
number of set bits of its slot bitmap (whose size is the per-page
capacity). -/
def RecordCountInv (s : RmFile) : Prop :=
  s.hdr.num_pages = s.pages.length ∧
  ∀ pg ∈ s.pages,
    pg.bitmap.length = s.hdr.num_records_per_page.toNat ∧
    pg.hdr.num_records = pg.bitmap.count true

/-! ## Helper lemmas -/

theorem length_listSet {α : Type} (l : List α) (n : Nat) (v : α) :
    (listSet l n v).length = l.length := by
  induction l generalizing n with
  | nil => rfl
  | cons h t ih => cases n with
    | zero => rfl
    | succ m => simp [listSet, ih]

theorem getD_listSet_self {α : Type} (l : List α) (n : Nat) (v d : α)
    (h : n < l.length) : (listSet l n v).getD n d = v := by
  induction l generalizing n with
  | nil => simp at h
  | cons x t ih => cases n with
    | zero => rfl
    | succ m =>
      simp only [List.length_cons, Nat.succ_lt_succ_iff] at h
      simpa [listSet] using ih m h

theorem getD_listSet_ne {α : Type} (l : List α) (n m : Nat) (v d : α)
    (h : m ≠ n) : (listSet l n v).getD m d = l.getD m d := by
  induction l generalizing n m with
  | nil => rfl
  | cons x t ih => cases n with
    | zero => cases m with
      | zero => exact absurd rfl h
      | succ k => rfl
    | succ k => cases m with
      | zero => rfl
      | succ j =>
        have : j ≠ k := fun hc => h (by simp [hc])
        simpa [listSet] using ih k j this

theorem mem_listSet {α : Type} {l : List α} {n : Nat} {v x : α}
    (h : x ∈ listSet l n v) : x = v ∨ x ∈ l := by
  induction l generalizing n with
  | nil => simp [listSet] at h
  | cons y t ih => cases n with
    | zero =>
      rcases List.mem_cons.mp h with h1 | h1
      · exact .inl h1
      · exact .inr (List.mem_cons_of_mem _ h1)
    | succ m =>
      rcases List.mem_cons.mp h with h1 | h1
      · exact .inr (h1 ▸ List.mem_cons_self _ _)
      · rcases ih h1 with h2 | h2
        · exact .inl h2
        · exact .inr (List.mem_cons_of_mem _ h2)

theorem count_true_listSet_of_false {l : List Bool} {n : Nat}
    (hn : n < l.length) (h : l.getD n false = false) :
    (listSet l n true).count true = l.count true + 1 := by
  induction l generalizing n with
  | nil => simp at hn
  | cons b t ih =>
    cases n with
    | zero =>
      simp only [List.getD_cons_zero] at h
      subst h
      simp [listSet, List.count_cons]
    | succ m =>
      simp only [List.length_cons, Nat.succ_lt_succ_iff] at hn
      simp only [List.getD_cons_succ] at h
      simp [listSet, List.count_cons, ih hn h, Nat.add_assoc, Nat.add_comm 1]

theorem count_true_listSet_of_true {l : List Bool} {n : Nat}
    (h : l.getD n false = true) :
    l.count true = (listSet l n false).count true + 1 := by
  induction l generalizing n with
  | nil => simp [List.getD] at h
  | cons b t ih =>
    cases n with
    | zero =>
      simp only [List.getD_cons_zero] at h
      subst h
      simp [listSet, List.count_cons]
    | succ m =>
      simp only [List.getD_cons_succ] at h
      simp [listSet, List.count_cons, ih h, Nat.add_assoc, Nat.add_comm 1]

theorem getD_append_length {α : Type} (l : List α) (x d : α) :
    (l ++ [x]).getD l.length d = x := by
  induction l with
  | nil => rfl
  | cons y t ih => simp only [List.cons_append, List.length_cons, List.getD_cons_succ, ih]

theorem getD_append_lt {α : Type} (l l2 : List α) (n : Nat) (d : α)
    (h : n < l.length) : (l ++ l2).getD n d = l.getD n d := by
  induction l generalizing n with
  | nil => simp at h
  | cons y t ih => cases n with
    | zero => rfl
    | succ m =>
      simp only [List.length_cons, Nat.succ_lt_succ_iff] at h
      simpa using ih m h

theorem mem_of_getLast?_eq_some {α : Type} {l : List α} {x : α}
    (h : l.getLast? = some x) : x ∈ l := by
  induction l with
  | nil => simp at h
  | cons a t ih =>
    cases t with
    | nil =>
      simp only [List.getLast?_singleton, Option.some.injEq] at h
      simp [h]
    | cons b t2 =>
      rw [List.getLast?_cons_cons] at h
      exact List.mem_cons_of_mem _ (ih h)

theorem lookupK_eraseK_self (t : List (PageId × Nat)) (k : PageId) :
    lookupK (eraseK t k) k = none := by
  induction t with
  | nil => rfl
  | cons e t ih =>
    by_cases h : e.1 = k
    · simpa [eraseK, h] using ih
    · simp [eraseK, lookupK, h, ih]

theorem lookupK_eraseK_ne (t : List (PageId × Nat)) {k k' : PageId}
    (h : k' ≠ k) : lookupK (eraseK t k) k' = lookupK t k' := by
  induction t with
  | nil => rfl
  | cons e t ih =>
    rcases e with ⟨ek, ev⟩
    by_cases he : ek = k
    · have h2 : ek ≠ k' := fun hc => h (hc ▸ he)
      simp [eraseK, lookupK, he, h2, ih, Ne.symm h]
    · by_cases he' : ek = k'
      · simp [eraseK, lookupK, he, he', h]
      · simp [eraseK, lookupK, he, he', ih]

theorem lookupK_setK_self (t : List (PageId × Nat)) (k : PageId) (f : Nat) :
    lookupK (setK t k f) k = some f := by
  simp [setK, lookupK]

theorem lookupK_setK_ne (t : List (PageId × Nat)) {k k' : PageId} (f : Nat)
    (h : k' ≠ k) : lookupK (setK t k f) k' = lookupK t k' := by
  have : k ≠ k' := fun hc => h hc.symm
  simp [setK, lookupK, this, lookupK_eraseK_ne t h]

theorem lookupK_eraseK_some {t : List (PageId × Nat)} {k pid : PageId} {f : Nat}
    (h : lookupK (eraseK t k) pid = some f) : lookupK t pid = some f ∧ pid ≠ k := by
  by_cases hk : pid = k
  · subst hk; simp [lookupK_eraseK_self] at h
  · exact ⟨(lookupK_eraseK_ne t hk) ▸ h, hk⟩

/-! ## Buffer pool invariant preservation -/

theorem updFrame_self (g : Nat → Frame) (i : Nat) (v : Frame) :
    updFrame g i v i = v := by simp [updFrame]

theorem updFrame_ne (g : Nat → Frame) {i j : Nat} (v : Frame) (h : j ≠ i) :
    updFrame g i v j = g j := by simp [updFrame, h]

/-- What `find_victim_page` guarantees when it succeeds: the victim frame
is unpinned, it has been removed from the free list, and nothing else
(frames, page table, replacer capacity) changed; the free list and the
replacer registry only shrink. -/
theorem findVictim_spec {s : BPM} (h : PoolInv s) {f : Nat} {s1 : BPM}
    (hv : findVictimPage s = (some f, s1)) :
    s1.frames = s.frames ∧ s1.page_table = s.page_table ∧ s1.lru_max = s.lru_max ∧
    (s.frames f).pin_count = 0 ∧
    f ∉ s1.free_list ∧
    (∀ g ∈ s1.free_list, g ∈ s.free_list) ∧
    s1.free_list.Nodup ∧
    (∀ g ∈ s1.lru_list, g ∈ s.lru_list) := by
  obtain ⟨ha, hb, _hc, hd, _he, _hg⟩ := h
  unfold findVictimPage at hv
  cases hfree : s.free_list with
  | cons fh rest =>
    rw [hfree] at hv
    simp only [Prod.mk.injEq, Option.some.injEq] at hv
    obtain ⟨rfl, rfl⟩ := hv
    have hnd := hfree ▸ hd
    refine ⟨rfl, rfl, rfl, ha _ (hfree ▸ List.mem_cons_self _ _), ?_, ?_, ?_, ?_⟩
    · exact (List.nodup_cons.mp hnd).1
    · intro g hg2
      exact hfree ▸ List.mem_cons_of_mem _ hg2
    · exact (List.nodup_cons.mp hnd).2
    · intro g hg2; exact hg2
  | nil =>
    rw [hfree] at hv
    unfold lruVictim at hv
    cases hl : s.lru_list.getLast? with
    | none => rw [hl] at hv; simp at hv
    | some f0 =>
      rw [hl] at hv
      simp only [Prod.mk.injEq, Option.some.injEq] at hv
      obtain ⟨rfl, rfl⟩ := hv
      refine ⟨rfl, rfl, rfl, hb _ (mem_of_getLast?_eq_some hl), ?_, ?_, ?_, ?_⟩
      · simp
      · intro g hg2; simp at hg2
      · simp
      · intro g hg2
        exact (List.mem_filter.mp hg2).1

theorem clearDirty_pin_count (fr : Frame) (c : Bool) :
    (if c = true then { fr with is_dirty := false } else fr).pin_count = fr.pin_count := by
  cases c <;> rfl

theorem clearDirty_id (fr : Frame) (c : Bool) :
    (if c = true then { fr with is_dirty := false } else fr).id = fr.id := by
  cases c <;> rfl

/-- What `update_page` does to the observable state: free list, replacer
and capacity untouched; the page table loses the victim's old entry and
gains the new one; pin counts are untouched; the victim frame now carries
the new page id. -/
theorem updatePage_spec (s : BPM) (f : Nat) (pid : PageId) :
    (updatePage s f pid).free_list = s.free_list ∧
    (updatePage s f pid).lru_list = s.lru_list ∧
    (updatePage s f pid).lru_max = s.lru_max ∧
    (updatePage s f pid).page_table = setK (eraseK s.page_table (s.frames f).id) pid f ∧
    (∀ g, ((updatePage s f pid).frames g).pin_count = (s.frames g).pin_count) ∧
    ((updatePage s f pid).frames f).id = pid ∧
    (∀ g, g ≠ f → (updatePage s f pid).frames g = s.frames g) := by
  refine ⟨rfl, rfl, rfl, rfl, ?_, ?_, ?_⟩
  · intro g
    by_cases hgf : g = f
    · rw [hgf]
      show ((updFrame s.frames f _) f).pin_count = _
      rw [updFrame_self]
      exact clearDirty_pin_count (s.frames f) (s.frames f).is_dirty
    · show ((updFrame s.frames f _) g).pin_count = _
      rw [updFrame_ne _ _ hgf]
  · show ((updFrame s.frames f _) f).id = pid
    rw [updFrame_self]
  · intro g hgf
    show (updFrame s.frames f _) g = s.frames g
    rw [updFrame_ne _ _ hgf]

/-- Observable effect of a `fetch_page` hit. -/
theorem fetchPage_hit_spec {s : BPM} {pid : PageId} {f : Nat}
    (hl : lookupK s.page_table pid = some f) :
    (fetchPage s pid).1 = some f ∧
    (fetchPage s pid).2.page_table = s.page_table ∧
    (fetchPage s pid).2.free_list = s.free_list ∧
    (fetchPage s pid).2.lru_list = lruPin s.lru_list f ∧
    (fetchPage s pid).2.lru_max = s.lru_max ∧
    (fetchPage s pid).2.frames =
      updFrame s.frames f { s.frames f with pin_count := (s.frames f).pin_count + 1 } := by
  simp only [fetchPage, hl]
  refine ⟨?_, ?_, ?_, ?_, ?_, ?_⟩ <;> trivial

/-- Observable effect of a `fetch_page` miss that found a victim frame. -/
theorem fetchPage_miss_spec {s : BPM} {pid : PageId} {f : Nat} {s1 : BPM}
    (hl : lookupK s.page_table pid = none)
    (hfv : findVictimPage s = (some f, s1)) :
    (fetchPage s pid).1 = some f ∧
    (fetchPage s pid).2.page_table = (updatePage s1 f pid).page_table ∧
    (fetchPage s pid).2.free_list = (updatePage s1 f pid).free_list ∧
    (fetchPage s pid).2.lru_list = lruPin (updatePage s1 f pid).lru_list f ∧
    (fetchPage s pid).2.lru_max = (updatePage s1 f pid).lru_max ∧
    (fetchPage s pid).2.frames =
      updFrame (updatePage s1 f pid).frames f
        { (updatePage s1 f pid).frames f with
            pin_count := ((updatePage s1 f pid).frames f).pin_count + 1 } := by
  simp only [fetchPage, hl, hfv]
  refine ⟨?_, ?_, ?_, ?_, ?_, ?_⟩ <;> trivial

/-- A `fetch_page` miss with no victim frame changes nothing. -/
theorem fetchPage_fail_spec {s : BPM} {pid : PageId} {s1 : BPM}
    (hl : lookupK s.page_table pid = none)
    (hfv : findVictimPage s = (none, s1)) :
    fetchPage s pid = (none, s) := by
  simp only [fetchPage, hl, hfv]

/-- `unpin_page` on a non-resident page fails and changes nothing. -/
theorem unpinPage_absent_spec {s : BPM} {pid : PageId} (d : Bool)
    (hl : lookupK s.page_table pid = none) :
    unpinPage s pid d = (false, s) := by
  simp only [unpinPage, hl]

/-- `unpin_page` on a page whose pin count is not positive fails and
changes nothing. -/
theorem unpinPage_zero_spec {s : BPM} {pid : PageId} {f : Nat} (d : Bool)
    (hl : lookupK s.page_table pid = some f)
    (hpin : (s.frames f).pin_count ≤ 0) :
    unpinPage s pid d = (false, s) := by
  simp only [unpinPage, hl, if_pos hpin]

/-- Observable effect of a successful `unpin_page`. -/
theorem unpinPage_succ_spec {s : BPM} {pid : PageId} {f : Nat} (d : Bool)
    (hl : lookupK s.page_table pid = some f)
    (hpin : ¬(s.frames f).pin_count ≤ 0) :
    (unpinPage s pid d).1 = true ∧
    (unpinPage s pid d).2.page_table = s.page_table ∧
    (unpinPage s pid d).2.free_list = s.free_list ∧
    (unpinPage s pid d).2.lru_list =
      (if (s.frames f).pin_count - 1 = 0 then lruUnpin s.lru_list s.lru_max f
       else s.lru_list) ∧
    (unpinPage s pid d).2.lru_max = s.lru_max ∧
    (unpinPage s pid d).2.frames =
      updFrame s.frames f
        { s.frames f with pin_count := (s.frames f).pin_count - 1, is_dirty := d } := by
  simp only [unpinPage, hl, if_neg hpin]
  refine ⟨?_, ?_, ?_, ?_, ?_, ?_⟩ <;> trivial

/-- `new_page` with no victim frame available changes nothing. -/
theorem newPage_noVictim_spec {s : BPM} {fd allocResult : Int} {s1 : BPM}
    (hfv : findVictimPage s = (none, s1)) :
    newPage s fd allocResult = (none, s) := by
  simp only [newPage, hfv]

/-- `new_page` whose `allocate_page` call fails returns no frame but keeps
the state in which the victim frame has already been taken. -/
theorem newPage_allocFail_spec {s : BPM} {fd : Int} {f : Nat} {s1 : BPM}
    (hfv : findVictimPage s = (some f, s1)) :
    newPage s fd (-1) = (none, s1) := by
  simp [newPage, hfv]

/-- Observable effect of a successful `new_page`. -/
theorem newPage_succ_spec {s : BPM} {fd allocResult : Int} {f : Nat} {s1 : BPM}
    (hfv : findVictimPage s = (some f, s1)) (halloc : allocResult ≠ -1) :
    (newPage s fd allocResult).1 = some f ∧
    (newPage s fd allocResult).2.page_table =
      (updatePage s1 f ⟨fd, allocResult⟩).page_table ∧
    (newPage s fd allocResult).2.free_list = (updatePage s1 f ⟨fd, allocResult⟩).free_list ∧
    (newPage s fd allocResult).2.lru_list =
      lruPin (updatePage s1 f ⟨fd, allocResult⟩).lru_list f ∧
    (newPage s fd allocResult).2.lru_max = (updatePage s1 f ⟨fd, allocResult⟩).lru_max ∧
    (newPage s fd allocResult).2.frames =
      updFrame (updatePage s1 f ⟨fd, allocResult⟩).frames f
        { (updatePage s1 f ⟨fd, allocResult⟩).frames f with pin_count := 1 } := by
  simp only [newPage, hfv, if_neg halloc]
  refine ⟨?_, ?_, ?_, ?_, ?_, ?_⟩ <;> trivial

/-- `delete_page` on a non-resident page succeeds vacuously. -/
theorem deletePage_absent_spec {s : BPM} {pid : PageId}
    (hl : lookupK s.page_table pid = none) :
    deletePage s pid = (true, s) := by
  simp only [deletePage, hl]

/-- `delete_page` on a pinned page fails and changes nothing. -/
theorem deletePage_pinned_spec {s : BPM} {pid : PageId} {f : Nat}
    (hl : lookupK s.page_table pid = some f)
    (hpin : (s.frames f).pin_count ≠ 0) :
    deletePage s pid = (false, s) := by
  simp only [deletePage, hl, if_pos hpin]

/-- Observable effect of a successful `delete_page`. -/
theorem deletePage_succ_spec {s : BPM} {pid : PageId} {f : Nat}
    (hl : lookupK s.page_table pid = some f)
    (hpin : ¬(s.frames f).pin_count ≠ 0) :
    (deletePage s pid).1 = true ∧
    (deletePage s pid).2.page_table = eraseK s.page_table pid ∧
    (deletePage s pid).2.free_list = s.free_list ++ [f] ∧
    (deletePage s pid).2.lru_list = s.lru_list ∧
    (deletePage s pid).2.lru_max = s.lru_max ∧
    (deletePage s pid).2.frames = s.frames := by
  simp only [deletePage, hl, if_neg hpin]
  refine ⟨?_, ?_, ?_, ?_, ?_, ?_⟩ <;> trivial

/-- `flush_page` on a non-resident page fails and changes nothing. -/
theorem flushPage_absent_spec {s : BPM} {pid : PageId}
    (hl : lookupK s.page_table pid = none) :
    flushPage s pid = (false, s) := by
  simp only [flushPage, hl]

/-- Observable effect of a successful `flush_page`. -/
theorem flushPage_succ_spec {s : BPM} {pid : PageId} {f : Nat}
    (hl : lookupK s.page_table pid = some f) :
    (flushPage s pid).1 = true ∧
    (flushPage s pid).2.page_table = s.page_table ∧
    (flushPage s pid).2.free_list = s.free_list ∧
    (flushPage s pid).2.lru_list = s.lru_list ∧
    (flushPage s pid).2.lru_max = s.lru_max ∧
    (flushPage s pid).2.frames = updFrame s.frames f { s.frames f with is_dirty := false } := by
  simp only [flushPage, hl]
  refine ⟨?_, ?_, ?_, ?_, ?_, ?_⟩ <;> trivial

/-- `flush_all_pages` only rewrites dirty flags: page table, free list,
replacer and every frame's pin count and page id are untouched. -/
theorem flushAllPages_spec (s : BPM) (fd : Int) :
    (flushAllPages s fd).page_table = s.page_table ∧
    (flushAllPages s fd).free_list = s.free_list ∧
    (flushAllPages s fd).lru_list = s.lru_list ∧
    (flushAllPages s fd).lru_max = s.lru_max ∧
    (∀ g, ((flushAllPages s fd).frames g).pin_count = (s.frames g).pin_count ∧
          ((flushAllPages s fd).frames g).id = (s.frames g).id) := by
  refine ⟨rfl, rfl, rfl, rfl, ?_⟩
  show ∀ g, ((s.page_table.foldl _ s.frames) g).pin_count = (s.frames g).pin_count ∧
       ((s.page_table.foldl _ s.frames) g).id = (s.frames g).id
  have key : ∀ (t : List (PageId × Nat)) (g0 : Nat → Frame) (g : Nat),
      ((t.foldl (fun acc e => if e.1.fd = fd
          then updFrame acc e.2 { acc e.2 with is_dirty := false } else acc) g0) g).pin_count
        = (g0 g).pin_count ∧
      ((t.foldl (fun acc e => if e.1.fd = fd
          then updFrame acc e.2 { acc e.2 with is_dirty := false } else acc) g0) g).id
        = (g0 g).id := by
    intro t
    induction t with
    | nil => intro g0 g; exact ⟨rfl, rfl⟩
    | cons e rest ih =>
      intro g0 g
      simp only [List.foldl_cons]
      refine ⟨(ih _ g).1.trans ?_, (ih _ g).2.trans ?_⟩ <;>
        · by_cases hfd : e.1.fd = fd
          · simp only [if_pos hfd]
            by_cases hge : g = e.2
            · rw [hge, updFrame_self]
            · rw [updFrame_ne _ _ hge]
          · simp only [if_neg hfd]
  intro g
  exact key s.page_table s.frames g

/-- `fetch_page` preserves the pool invariant. -/
theorem poolInv_fetchPage {s : BPM} (h : PoolInv s) (pid : PageId) :
    PoolInv (fetchPage s pid).2 := by
  cases hl : lookupK s.page_table pid with
  | some f =>
    obtain ⟨ha, hb, hc, hd, he, hg⟩ := h
    have hf_free : f ∉ s.free_list := hc pid f hl
    obtain ⟨_, htb, hfree, hlru, _, hfr⟩ := fetchPage_hit_spec hl
    simp only [PoolInv]
    rw [htb, hfree, hlru, hfr]
    refine ⟨?_, ?_, hc, hd, ?_, ?_⟩
    · intro g hgm
      have hne : g ≠ f := fun hc2 => hf_free (hc2 ▸ hgm)
      rw [updFrame_ne _ _ hne]
      exact ha g hgm
    · intro g hgm
      have hgm2 := List.mem_filter.mp hgm
      have hne : g ≠ f := by simpa using hgm2.2
      rw [updFrame_ne _ _ hne]
      exact hb g hgm2.1
    · intro q g hq
      by_cases hgf : g = f
      · rw [hgf, updFrame_self]
        show (s.frames f).id = q
        exact hgf ▸ he q g hq
      · rw [updFrame_ne _ _ hgf]
        exact he q g hq
    · intro g
      by_cases hgf : g = f
      · rw [hgf, updFrame_self]
        show 0 ≤ (s.frames f).pin_count + 1
        have := hg f; omega
      · rw [updFrame_ne _ _ hgf]
        exact hg g
  | none =>
    cases hfv : findVictimPage s with
    | mk vres s1 =>
      cases vres with
      | none => rw [fetchPage_fail_spec hl hfv]; exact h
      | some f =>
        obtain ⟨hfr, htb, _hmax, hpin0, hnotfree, hsub, hnd1, hlsub⟩ := findVictim_spec h hfv
        obtain ⟨ha, hb, hc, _hd, he, hg⟩ := h
        obtain ⟨hfree2, hlru2, _hmax2, htb2, hpin2, hid2, hfr2ne⟩ := updatePage_spec s1 f pid
        obtain ⟨_, mtb, mfree, mlru, _, mfr⟩ := fetchPage_miss_spec hl hfv
        simp only [PoolInv]
        rw [mtb, mfree, mlru, mfr, htb2, hfree2, hlru2, htb, hfr]
        refine ⟨?_, ?_, ?_, hnd1, ?_, ?_⟩
        · intro g hgm
          have hgs : g ∈ s.free_list := hsub g hgm
          have hne : g ≠ f := fun hc2 => hnotfree (hc2 ▸ hgm)
          rw [updFrame_ne _ _ hne, hfr2ne g hne, hfr]
          exact ha g hgs
        · intro g hgm
          have hgm2 := List.mem_filter.mp hgm
          have hne : g ≠ f := by simpa using hgm2.2
          have hgm3 : g ∈ s.lru_list := hlsub g hgm2.1
          rw [updFrame_ne _ _ hne, hfr2ne g hne, hfr]
          exact hb g hgm3
        · intro q g hq
          by_cases hqp : q = pid
          · rw [hqp, lookupK_setK_self] at hq
            cases hq
            exact hnotfree
          · rw [lookupK_setK_ne _ _ hqp] at hq
            obtain ⟨hq2, _⟩ := lookupK_eraseK_some hq
            intro hmem
            exact hc q g hq2 (hsub g hmem)
        · intro q g hq
          by_cases hqp : q = pid
          · subst hqp
            rw [lookupK_setK_self] at hq
            cases hq
            rw [updFrame_self]
            show ((updatePage s1 f q).frames f).id = q
            exact hid2
          · rw [lookupK_setK_ne _ _ hqp] at hq
            obtain ⟨hq2, hqe⟩ := lookupK_eraseK_some hq
            have hgid := he q g hq2
            have hgf : g ≠ f := by
              intro hc2
              rw [hc2] at hgid
              exact hqe hgid.symm
            rw [updFrame_ne _ _ hgf, hfr2ne g hgf, hfr]
            exact hgid
        · intro g
          by_cases hgf : g = f
          · rw [hgf, updFrame_self]
            show 0 ≤ ((updatePage s1 f pid).frames f).pin_count + 1
            rw [hpin2, hfr]
            have := hg f; omega
          · rw [updFrame_ne _ _ hgf, hfr2ne g hgf, hfr]
            exact hg g

/-- `unpin_page` preserves the pool invariant. -/
theorem poolInv_unpinPage {s : BPM} (h : PoolInv s) (pid : PageId) (d : Bool) :
    PoolInv (unpinPage s pid d).2 := by
  cases hl : lookupK s.page_table pid with
  | none => rw [unpinPage_absent_spec d hl]; exact h
  | some f =>
    by_cases hpin : (s.frames f).pin_count ≤ 0
    · rw [unpinPage_zero_spec d hl hpin]; exact h
    · obtain ⟨ha, hb, hc, hd, he, hg⟩ := h
      have hf_free : f ∉ s.free_list := hc pid f hl
      have hf_lru : f ∉ s.lru_list := by
        intro hmem
        exact hpin (le_of_eq (hb f hmem))
      obtain ⟨_, htb, hfree, hlru, _, hfr⟩ := unpinPage_succ_spec d hl hpin
      simp only [PoolInv]
      rw [htb, hfree, hlru, hfr]
      refine ⟨?_, ?_, hc, hd, ?_, ?_⟩
      · intro g hgm
        have hne : g ≠ f := fun hc2 => hf_free (hc2 ▸ hgm)
        rw [updFrame_ne _ _ hne]
        exact ha g hgm
      · intro g hgm
        by_cases hz : (s.frames f).pin_count - 1 = 0
        · rw [if_pos hz] at hgm
          by_cases hgf : g = f
          · rw [hgf, updFrame_self]
            show (s.frames f).pin_count - 1 = 0
            exact hz
          · rw [updFrame_ne _ _ hgf]
            have hgm2 : g ∈ s.lru_list := by
              unfold lruUnpin at hgm
              by_cases hcap : f ∉ s.lru_list ∧ s.lru_list.length < s.lru_max
              · rw [if_pos hcap] at hgm
                rcases List.mem_cons.mp hgm with h1 | h1
                · exact absurd h1 hgf
                · exact h1
              · rw [if_neg hcap] at hgm
                exact hgm
            exact hb g hgm2
        · rw [if_neg hz] at hgm
          have hgf : g ≠ f := fun hc2 => hf_lru (hc2 ▸ hgm)
          rw [updFrame_ne _ _ hgf]
          exact hb g hgm
      · intro q g hq
        by_cases hgf : g = f
        · rw [hgf, updFrame_self]
          show (s.frames f).id = q
          exact hgf ▸ he q g hq
        · rw [updFrame_ne _ _ hgf]
          exact he q g hq
      · intro g
        by_cases hgf : g = f
        · rw [hgf, updFrame_self]
          show 0 ≤ (s.frames f).pin_count - 1
          omega
        · rw [updFrame_ne _ _ hgf]
          exact hg g

/-- `new_page` preserves the pool invariant. -/
theorem poolInv_newPage {s : BPM} (h : PoolInv s) (fd allocResult : Int) :
    PoolInv (newPage s fd allocResult).2 := by
  cases hfv : findVictimPage s with
  | mk vres s1 =>
    cases vres with
    | none => rw [newPage_noVictim_spec hfv]; exact h
    | some f =>
      obtain ⟨hfr, htb, hmax, hpin0, hnotfree, hsub, hnd1, hlsub⟩ := findVictim_spec h hfv
      obtain ⟨ha, hb, hc, _hd, he, hg⟩ := h
      by_cases halloc : allocResult = -1
      · subst halloc
        rw [newPage_allocFail_spec hfv]
        simp only [PoolInv]
        rw [hfr, htb]
        refine ⟨?_, ?_, ?_, hnd1, ?_, hg⟩
        · intro g hgm
          exact ha g (hsub g hgm)
        · intro g hgm
          exact hb g (hlsub g hgm)
        · intro q g hq
          intro hmem
          exact hc q g hq (hsub g hmem)
        · intro q g hq
          exact he q g hq
      · set pid : PageId := ⟨fd, allocResult⟩ with hpid
        obtain ⟨hfree2, hlru2, _hmax2, htb2, hpin2, hid2, hfr2ne⟩ := updatePage_spec s1 f pid
        obtain ⟨_, mtb, mfree, mlru, _, mfr⟩ := newPage_succ_spec hfv halloc
        simp only [PoolInv]
        rw [mtb, mfree, mlru, mfr, htb2, hfree2, hlru2, htb, hfr]
        refine ⟨?_, ?_, ?_, hnd1, ?_, ?_⟩
        · intro g hgm
          have hgs : g ∈ s.free_list := hsub g hgm
          have hne : g ≠ f := fun hc2 => hnotfree (hc2 ▸ hgm)
          rw [updFrame_ne _ _ hne, hfr2ne g hne, hfr]
          exact ha g hgs
        · intro g hgm
          have hgm2 := List.mem_filter.mp hgm
          have hne : g ≠ f := by simpa using hgm2.2
          have hgm3 : g ∈ s.lru_list := hlsub g hgm2.1
          rw [updFrame_ne _ _ hne, hfr2ne g hne, hfr]
          exact hb g hgm3
        · intro q g hq
          by_cases hqp : q = pid
          · rw [hqp, lookupK_setK_self] at hq
            cases hq
            exact hnotfree
          · rw [lookupK_setK_ne _ _ hqp] at hq
            obtain ⟨hq2, _⟩ := lookupK_eraseK_some hq
            intro hmem
            exact hc q g hq2 (hsub g hmem)
        · intro q g hq
          by_cases hqp : q = pid
          · subst hqp
            rw [lookupK_setK_self] at hq
            cases hq
            rw [updFrame_self]
            show ((updatePage s1 f pid).frames f).id = pid
            exact hid2
          · rw [lookupK_setK_ne _ _ hqp] at hq
            obtain ⟨hq2, hqe⟩ := lookupK_eraseK_some hq
            have hgid := he q g hq2
            have hgf : g ≠ f := by
              intro hc2
              rw [hc2] at hgid
              exact hqe hgid.symm
            rw [updFrame_ne _ _ hgf, hfr2ne g hgf, hfr]
            exact hgid
        · intro g
          by_cases hgf : g = f
          · rw [hgf, updFrame_self]
            show (0 : Int) ≤ 1
            omega
          · rw [updFrame_ne _ _ hgf, hfr2ne g hgf, hfr]
            exact hg g

/-- `delete_page` preserves the pool invariant. -/
theorem poolInv_deletePage {s : BPM} (h : PoolInv s) (pid : PageId) :
    PoolInv (deletePage s pid).2 := by
  cases hl : lookupK s.page_table pid with
  | none => rw [deletePage_absent_spec hl]; exact h
  | some f =>
    by_cases hpin : (s.frames f).pin_count ≠ 0
    · rw [deletePage_pinned_spec hl hpin]; exact h
    · obtain ⟨ha, hb, hc, hd, he, hg⟩ := h
      have hpin0 : (s.frames f).pin_count = 0 := by omega
      have hf_free : f ∉ s.free_list := hc pid f hl
      obtain ⟨_, htb, hfree, hlru, _, hfr⟩ := deletePage_succ_spec hl hpin
      simp only [PoolInv]
      rw [htb, hfree, hlru, hfr]
      refine ⟨?_, hb, ?_, ?_, ?_, hg⟩
      · intro g hgm
        rcases List.mem_append.mp hgm with h1 | h1
        · exact ha g h1
        · rw [List.mem_singleton.mp h1]
          exact hpin0
      · intro q g hq
        obtain ⟨hq2, hqp⟩ := lookupK_eraseK_some hq
        intro hmem
        rcases List.mem_append.mp hmem with h1 | h1
        · exact hc q g hq2 h1
        · have hgf : g = f := List.mem_singleton.mp h1
          subst hgf
          have h3 := he q g hq2
          have h4 := he pid g hl
          exact hqp (by rw [← h3, h4])
      · have : f ∉ s.free_list := hf_free
        simp [List.nodup_append, hd, this]
      · intro q g hq
        exact he q g (lookupK_eraseK_some hq).1

/-- `flush_page` preserves the pool invariant. -/
theorem poolInv_flushPage {s : BPM} (h : PoolInv s) (pid : PageId) :
    PoolInv (flushPage s pid).2 := by
  cases hl : lookupK s.page_table pid with
  | none => rw [flushPage_absent_spec hl]; exact h
  | some f =>
    obtain ⟨ha, hb, hc, hd, he, hg⟩ := h
    obtain ⟨_, htb, hfree, hlru, _, hfr⟩ := flushPage_succ_spec hl
    simp only [PoolInv]
    rw [htb, hfree, hlru, hfr]
    have pinEq : ∀ g, ((updFrame s.frames f { s.frames f with is_dirty := false }) g).pin_count
        = (s.frames g).pin_count := by
      intro g
      by_cases hgf : g = f
      · rw [hgf, updFrame_self]
      · rw [updFrame_ne _ _ hgf]
    have idEq : ∀ g, ((updFrame s.frames f { s.frames f with is_dirty := false }) g).id
        = (s.frames g).id := by
      intro g
      by_cases hgf : g = f
      · rw [hgf, updFrame_self]
      · rw [updFrame_ne _ _ hgf]
    refine ⟨?_, ?_, hc, hd, ?_, ?_⟩
    · intro g hgm; rw [pinEq]; exact ha g hgm
    · intro g hgm; rw [pinEq]; exact hb g hgm
    · intro q g hq; rw [idEq]; exact he q g hq
    · intro g; rw [pinEq]; exact hg g

/-- `flush_all_pages` preserves the pool invariant. -/
theorem poolInv_flushAllPages {s : BPM} (h : PoolInv s) (fd : Int) :
    PoolInv (flushAllPages s fd) := by
  obtain ⟨ha, hb, hc, hd, he, hg⟩ := h
  obtain ⟨htb, hfree, hlru, _, hfr⟩ := flushAllPages_spec s fd
  simp only [PoolInv]
  rw [htb, hfree, hlru]
  refine ⟨?_, ?_, hc, hd, ?_, ?_⟩
  · intro g hgm; rw [(hfr g).1]; exact ha g hgm
  · intro g hgm; rw [(hfr g).1]; exact hb g hgm
  · intro q g hq; rw [(hfr g).2]; exact he q g hq
  · intro g; rw [(hfr g).1]; exact hg g

/-- The empty pool satisfies the invariant. -/
theorem poolInv_init (n : Nat) : PoolInv (initBPM n) := by
  refine ⟨?_, ?_, ?_, ?_, ?_, ?_⟩
  · intro f _; rfl
  · intro f hf; simp [initBPM] at hf
  · intro pid f hf; simp [initBPM, lookupK] at hf
  · show (List.range n).Nodup
    exact List.nodup_range n
  · intro pid f hf; simp [initBPM, lookupK] at hf
  · intro f; show (0 : Int) ≤ 0; omega

/-- Every reachable pool state satisfies the invariant. -/
theorem poolInv_reachable {s : BPM} (h : PoolReachable s) : PoolInv s := by
  induction h with
  | init n => exact poolInv_init n
  | fetch pid _ ih => exact poolInv_fetchPage ih pid
  | unpin pid d _ ih => exact poolInv_unpinPage ih pid d
  | newp fd allocResult _ ih => exact poolInv_newPage ih fd allocResult
  | del pid _ ih => exact poolInv_deletePage ih pid
  | flush pid _ ih => exact poolInv_flushPage ih pid
  | flushAll fd _ ih => exact poolInv_flushAllPages ih fd

/-! ## Claim C1: a victim frame always has pin count 0 -/

/-- C1: in every reachable buffer pool state, whenever
`find_victim_page` (the victim-selection routine shared by `fetch_page`
and `new_page`) selects a victim frame — from the free list or from
`LRUReplacer::victim` — that frame's pin count is 0, so no page is evicted
while a caller still holds it pinned. -/
theorem victim_pin_count_zero {s : BPM} {f : Nat}
    (hreach : PoolReachable s) (hv : (findVictimPage s).1 = some f) :
    (s.frames f).pin_count = 0 := by
  obtain ⟨ha, hb, _, _, _, _⟩ := poolInv_reachable hreach
  unfold findVictimPage at hv
  cases hfree : s.free_list with
  | cons fh rest =>
    rw [hfree] at hv
    simp only [Option.some.injEq] at hv
    rw [← hv]
    exact ha fh (hfree ▸ List.mem_cons_self _ _)
  | nil =>
    rw [hfree] at hv
    unfold lruVictim at hv
    cases hl : s.lru_list.getLast? with
    | none => rw [hl] at hv; simp at hv
    | some f0 =>
      rw [hl] at hv
      simp only [Option.some.injEq] at hv
      rw [← hv]
      exact hb f0 (mem_of_getLast?_eq_some hl)

/-- Witness for C1 at a concrete reachable state: the one-frame initial
pool, whose victim is frame 0 with pin count 0. -/
theorem victim_pin_count_zero_witness :
    (findVictimPage (initBPM 1)).1 = some 0 ∧ ((initBPM 1).frames 0).pin_count = 0 :=
  ⟨by decide, victim_pin_count_zero (PoolReachable.init 1) (by decide)⟩

/-! ## Claim C4: the dirty flag on unpin -/

/-- Counterexample to C4 as stated: fetch the same page twice, unpin it
with `is_dirty = true` (the frame is dirty), then unpin it with
`is_dirty = false` before any flush — the frame is clean again, because
`unpin_page` assigns the flag instead of OR-ing it. -/
theorem unpin_dirty_overwritten_cex :
    ((unpinPage (fetchPage (fetchPage (initBPM 1) ⟨3, 5⟩).2 ⟨3, 5⟩).2 ⟨3, 5⟩ true).2.frames 0).is_dirty = true ∧
    ((unpinPage (unpinPage (fetchPage (fetchPage (initBPM 1) ⟨3, 5⟩).2 ⟨3, 5⟩).2 ⟨3, 5⟩ true).2 ⟨3, 5⟩ false).2.frames 0).is_dirty = false := by
  exact ⟨by decide, by decide⟩

/-- C4 amended: for every resident page with a positive pin count,
`unpin_page(page_id, is_dirty)` sets the frame's dirty flag to `is_dirty`,
overwriting the previous value — so a later successful
`unpin_page(page_id, false)` marks a dirty page clean again. -/
theorem unpin_sets_dirty_flag {s : BPM} {pid : PageId} {f : Nat} (d : Bool)
    (hl : lookupK s.page_table pid = some f)
    (hpin : 0 < (s.frames f).pin_count) :
    ((unpinPage s pid d).2.frames f).is_dirty = d := by
  have hnle : ¬(s.frames f).pin_count ≤ 0 := by omega
  obtain ⟨_, _, _, _, _, hfr⟩ := unpinPage_succ_spec d hl hnle
  rw [hfr, updFrame_self]

/-- Witness for the amended C4 at a concrete input. -/
theorem unpin_sets_dirty_flag_witness :
    ((unpinPage (fetchPage (initBPM 1) ⟨3, 5⟩).2 ⟨3, 5⟩ false).2.frames 0).is_dirty = false :=
  unpin_sets_dirty_flag false (by decide) (by decide)

/-! ## Claim C8: failure atomicity of `new_page` -/

/-- C8 fails on the code: on the one-frame pool (free list `[0]`),
`new_page` whose `allocate_page` call fails (returns `INVALID_PAGE_ID`)
returns no frame but has already popped frame 0 off the free list and does
not restore it — the free-frame list is left empty instead of `[0]`. -/
theorem new_page_alloc_fail_loses_frame :
    (newPage (initBPM 1) 7 (-1)).1 = none ∧
    (initBPM 1).free_list = [0] ∧
    (newPage (initBPM 1) 7 (-1)).2.free_list = [] := by
  exact ⟨by decide, by decide, by decide⟩

/-! ## Claim C9: pin-count accounting for fetch/unpin sequences -/

/-- Pin counts of reachable-invariant states are nonnegative. -/
theorem pinCountOf_nonneg {s : BPM} (h : PoolInv s) (pid : PageId) :
    0 ≤ pinCountOf s pid := by
  obtain ⟨_, _, _, _, _, hg⟩ := h
  unfold pinCountOf
  cases hl : lookupK s.page_table pid with
  | none => exact le_refl 0
  | some f => exact hg f

/-- One `fetch_page` call changes the target page's pin count by exactly 1
when it succeeds and by 0 when it fails. -/
theorem pinCountOf_fetchPage {s : BPM} (h : PoolInv s) (pid : PageId) :
    pinCountOf (fetchPage s pid).2 pid
      = pinCountOf s pid + (if (fetchPage s pid).1.isSome then 1 else 0) := by
  cases hl : lookupK s.page_table pid with
  | some f =>
    obtain ⟨hres, htb, _, _, _, hfr⟩ := fetchPage_hit_spec hl
    rw [pinCountOf, pinCountOf, htb, hfr, hl, hres]
    simp only [Option.isSome_some, if_pos]
    rw [updFrame_self]
  | none =>
    cases hfv : findVictimPage s with
    | mk vres s1 =>
      cases vres with
      | none =>
        rw [fetchPage_fail_spec hl hfv]
        simp
      | some f =>
        obtain ⟨hfr1, htb1, _, hpin0, _, _, _, _⟩ := findVictim_spec h hfv
        obtain ⟨hfree2, hlru2, _, htb2, hpin2, _, _⟩ := updatePage_spec s1 f pid
        obtain ⟨hres, mtb, _, _, _, mfr⟩ := fetchPage_miss_spec hl hfv
        simp only [pinCountOf, mtb, mfr, hl, hres, htb2, htb1, lookupK_setK_self,
          Option.isSome_some, if_pos]
        rw [updFrame_self]
        show ((updatePage s1 f pid).frames f).pin_count + 1 = 0 + 1
        rw [hpin2, hfr1, hpin0]

/-- One `unpin_page` call changes the target page's pin count by exactly 1
when it succeeds and by 0 when it fails. -/
theorem pinCountOf_unpinPage (s : BPM) (pid : PageId) (d : Bool) :
    pinCountOf (unpinPage s pid d).2 pid
      = pinCountOf s pid - (if (unpinPage s pid d).1 then 1 else 0) := by
  cases hl : lookupK s.page_table pid with
  | none =>
    rw [unpinPage_absent_spec d hl]
    simp
  | some f =>
    by_cases hpin : (s.frames f).pin_count ≤ 0
    · rw [unpinPage_zero_spec d hl hpin]
      simp
    · obtain ⟨hres, htb, _, _, _, hfr⟩ := unpinPage_succ_spec d hl hpin
      rw [pinCountOf, pinCountOf, htb, hfr, hl, hres]
      simp only [if_pos]
      rw [updFrame_self]

/-- Failure behaviour of `unpin_page` on a state with nonnegative pin
counts: it returns `false` exactly when the page is not resident or its
pin count is already 0, and in that case it changes nothing. -/
theorem unpinPage_fail_iff {s : BPM} (h : PoolInv s) (pid : PageId) (d : Bool) :
    ((unpinPage s pid d).1 = false ↔
      (lookupK s.page_table pid = none ∨ pinCountOf s pid = 0)) ∧
    ((unpinPage s pid d).1 = false → (unpinPage s pid d).2 = s) := by
  obtain ⟨_, _, _, _, _, hg⟩ := h
  cases hl : lookupK s.page_table pid with
  | none =>
    rw [unpinPage_absent_spec d hl]
    exact ⟨by simp, fun _ => rfl⟩
  | some f =>
    by_cases hpin : (s.frames f).pin_count ≤ 0
    · have hz : (s.frames f).pin_count = 0 := le_antisymm hpin (hg f)
      rw [unpinPage_zero_spec d hl hpin]
      refine ⟨?_, fun _ => rfl⟩
      simp [pinCountOf, hl, hz]
    · have hres := (unpinPage_succ_spec d hl hpin).1
      rw [hres]
      refine ⟨?_, by simp⟩
      simp only [pinCountOf, hl]
      constructor
      · intro hfalse; cases hfalse
      · intro hor
        rcases hor with h1 | h1
        · cases h1
        · exact absurd h1 (by omega)

/-- Trace lemma: running any fetch/unpin sequence on one page from an
invariant state preserves the invariant and changes the page's pin count
by (successful fetches − successful unpins). -/
theorem runPoolOps_accounting (pid : PageId) (ops : List PoolOp) :
    ∀ s : BPM, PoolInv s →
      PoolInv (runPoolOps pid s ops).1 ∧
      pinCountOf (runPoolOps pid s ops).1 pid + ((runPoolOps pid s ops).2.2 : Int)
        = pinCountOf s pid + ((runPoolOps pid s ops).2.1 : Int) := by
  induction ops with
  | nil =>
    intro s h
    exact ⟨h, rfl⟩
  | cons op rest ih =>
    intro s h
    cases op with
    | fetchOp =>
      have hInv1 := poolInv_fetchPage h pid
      have hEq1 := pinCountOf_fetchPage h pid
      obtain ⟨ihInv, ihEq⟩ := ih (fetchPage s pid).2 hInv1
      refine ⟨ihInv, ?_⟩
      show pinCountOf (runPoolOps pid (fetchPage s pid).2 rest).1 pid
          + ((runPoolOps pid (fetchPage s pid).2 rest).2.2 : Int)
        = pinCountOf s pid
          + (((if (fetchPage s pid).1.isSome then 1 else 0)
              + (runPoolOps pid (fetchPage s pid).2 rest).2.1 : Nat) : Int)
      rw [ihEq, hEq1]
      push_cast
      by_cases hb : (fetchPage s pid).1.isSome <;> simp [hb] <;> ring
    | unpinOp d =>
      have hInv1 := poolInv_unpinPage h pid d
      have hEq1 := pinCountOf_unpinPage s pid d
      obtain ⟨ihInv, ihEq⟩ := ih (unpinPage s pid d).2 hInv1
      refine ⟨ihInv, ?_⟩
      show pinCountOf (runPoolOps pid (unpinPage s pid d).2 rest).1 pid
          + (((if (unpinPage s pid d).1 then 1 else 0)
              + (runPoolOps pid (unpinPage s pid d).2 rest).2.2 : Nat) : Int)
        = pinCountOf s pid + ((runPoolOps pid (unpinPage s pid d).2 rest).2.1 : Int)
      push_cast
      rw [← add_assoc, add_comm (pinCountOf _ _) _, add_assoc]
      rw [ihEq, hEq1]
      by_cases hb : (unpinPage s pid d).1 <;> simp [hb] <;> ring

/-- C9: for every sequence of `fetch_page`/`unpin_page` calls on a single
page id, starting from a fresh pool, the page's pin count equals the
number of successful fetches minus the number of successful unpins and
never goes negative; `unpin_page` on the resulting state returns `false`
exactly when the page is not resident or its pin count is already 0, and
in that case changes nothing. -/
theorem pool_pin_accounting (n : Nat) (pid : PageId) (ops : List PoolOp) (d : Bool) :
    pinCountOf (runPoolOps pid (initBPM n) ops).1 pid
      = ((runPoolOps pid (initBPM n) ops).2.1 : Int)
        - ((runPoolOps pid (initBPM n) ops).2.2 : Int) ∧
    (runPoolOps pid (initBPM n) ops).2.2 ≤ (runPoolOps pid (initBPM n) ops).2.1 ∧
    ((unpinPage (runPoolOps pid (initBPM n) ops).1 pid d).1 = false ↔
      (lookupK (runPoolOps pid (initBPM n) ops).1.page_table pid = none ∨
       pinCountOf (runPoolOps pid (initBPM n) ops).1 pid = 0)) ∧
    ((unpinPage (runPoolOps pid (initBPM n) ops).1 pid d).1 = false →
      (unpinPage (runPoolOps pid (initBPM n) ops).1 pid d).2
        = (runPoolOps pid (initBPM n) ops).1) := by
  obtain ⟨hInv, hEq⟩ := runPoolOps_accounting pid ops (initBPM n) (poolInv_init n)
  have hinit : pinCountOf (initBPM n) pid = 0 := rfl
  rw [hinit] at hEq
  have hnn := pinCountOf_nonneg hInv pid
  obtain ⟨hiff, hunch⟩ := unpinPage_fail_iff hInv pid d
  refine ⟨by omega, ?_, hiff, hunch⟩
  have : pinCountOf (runPoolOps pid (initBPM n) ops).1 pid
      = ((runPoolOps pid (initBPM n) ops).2.1 : Int)
        - ((runPoolOps pid (initBPM n) ops).2.2 : Int) := by omega
  have h2 : (0 : Int) ≤ ((runPoolOps pid (initBPM n) ops).2.1 : Int)
      - ((runPoolOps pid (initBPM n) ops).2.2 : Int) := this ▸ hnn
  exact_mod_cast sub_nonneg.mp h2

/-- Witness for C9 at a concrete trace: one frame, two fetches and one
unpin of the same page. -/
theorem pool_pin_accounting_witness :
    pinCountOf (runPoolOps ⟨0, 0⟩ (initBPM 1) [.fetchOp, .fetchOp, .unpinOp true]).1 ⟨0, 0⟩
      = ((runPoolOps ⟨0, 0⟩ (initBPM 1) [.fetchOp, .fetchOp, .unpinOp true]).2.1 : Int)
        - ((runPoolOps ⟨0, 0⟩ (initBPM 1) [.fetchOp, .fetchOp, .unpinOp true]).2.2 : Int) ∧
    (runPoolOps ⟨0, 0⟩ (initBPM 1) [.fetchOp, .fetchOp, .unpinOp true]).2.2
      ≤ (runPoolOps ⟨0, 0⟩ (initBPM 1) [.fetchOp, .fetchOp, .unpinOp true]).2.1 ∧
    ((unpinPage (runPoolOps ⟨0, 0⟩ (initBPM 1) [.fetchOp, .fetchOp, .unpinOp true]).1 ⟨0, 0⟩ false).1 = false ↔
      (lookupK (runPoolOps ⟨0, 0⟩ (initBPM 1) [.fetchOp, .fetchOp, .unpinOp true]).1.page_table ⟨0, 0⟩ = none ∨
       pinCountOf (runPoolOps ⟨0, 0⟩ (initBPM 1) [.fetchOp, .fetchOp, .unpinOp true]).1 ⟨0, 0⟩ = 0)) ∧
    ((unpinPage (runPoolOps ⟨0, 0⟩ (initBPM 1) [.fetchOp, .fetchOp, .unpinOp true]).1 ⟨0, 0⟩ false).1 = false →
      (unpinPage (runPoolOps ⟨0, 0⟩ (initBPM 1) [.fetchOp, .fetchOp, .unpinOp true]).1 ⟨0, 0⟩ false).2
        = (runPoolOps ⟨0, 0⟩ (initBPM 1) [.fetchOp, .fetchOp, .unpinOp true]).1) :=
  pool_pin_accounting 1 ⟨0, 0⟩ [.fetchOp, .fetchOp, .unpinOp true] false

/-! ## Claim C3: the record layer leaks pins -/

/-- C3 fails on the code: `get_record` on a valid rid of a one-page file
(record `[9]` at slot 0, pin count 0) returns the record but leaves the
page's pin count at 1 — `get_record` never calls `unpin_page` on any path,
so the operation changes the net pin count. -/
theorem get_record_pin_leak :
    (getRecord okT ⟨⟨1, 2, 1, 0⟩, [⟨⟨-1, 1⟩, [true, false], [[9], [0]]⟩], [0]⟩ ⟨0, 0⟩).1
      = some [9] ∧
    (⟨⟨1, 2, 1, 0⟩, [⟨⟨-1, 1⟩, [true, false], [[9], [0]]⟩], [0]⟩ : RmFile).pins = [0] ∧
    (getRecord okT ⟨⟨1, 2, 1, 0⟩, [⟨⟨-1, 1⟩, [true, false], [[9], [0]]⟩], [0]⟩ ⟨0, 0⟩).2.pins
      = [1] :=
  ⟨by decide, by decide, by decide⟩

/-! ## Claim C5: the free-page-list invariant -/

/-- C5 fails on the code: inserting one record into an empty file
(`records_per_page = 2`) creates page 0 with `num_records = 1 < 2`, yet
`create_new_page_handle` never links the new page into
`first_free_page_no`, which stays `RM_NO_PAGE`; the set of pages reachable
from the free-list head is empty although page 0 has a free slot. -/
theorem insert_new_page_not_linked :
    (insOut (insertRecord okT true (emptyRm 1 2) [7])).1 = ⟨0, 0⟩ ∧
    (insOut (insertRecord okT true (emptyRm 1 2) [7])).2.hdr.first_free_page_no = RM_NO_PAGE ∧
    ((insOut (insertRecord okT true (emptyRm 1 2) [7])).2.pages.getD 0 default).hdr.num_records = 1 ∧
    (insOut (insertRecord okT true (emptyRm 1 2) [7])).2.hdr.num_records_per_page = 2 ∧
    freeReachable (insOut (insertRecord okT true (emptyRm 1 2) [7])).2 = [] :=
  ⟨by decide, by decide, by decide, by decide, by decide⟩

/-! ## Claim C6: `num_records` versus the bitmap population count -/

/-- Counterexample to C6 as stated: from the empty file
(`records_per_page = 2`), insert one record (slot 0 of page 0), then call
`delete_record` on the unoccupied in-range rid (0, 1): `Bitmap::reset` on
an already-clear bit changes nothing but `num_records--` still runs, so
`num_records = 0` while the bitmap has one set bit. -/
theorem delete_unset_slot_breaks_count_cex :
    ((deleteRecord okT (insOut (insertRecord okT true (emptyRm 1 2) [7])).2 ⟨0, 1⟩).pages.getD 0 default).hdr.num_records = 0 ∧
    ((deleteRecord okT (insOut (insertRecord okT true (emptyRm 1 2) [7])).2 ⟨0, 1⟩).pages.getD 0 default).bitmap.count true = 1 :=
  ⟨by decide, by decide⟩

/-! ## Claim C7: scan order and `is_end` -/

/-- C7 fails on the code: on the file `[P0: slots {0, 2}, P1: slots {1}]`
the scan cursor does visit `(0,0)`, `(0,2)`, `(1,1)` in order, but
`is_end()` already returns `true` at `(0,2)` — it compares `slot_no`
against the page's `num_records` (2), a population count, not a slot
bound — although the occupied slot `(1,1)` has not been visited yet. -/
theorem scan_is_end_early :
    scanRidOf (scanInit okT scanFixture) = some ⟨0, 0⟩ ∧
    scanEndOf (scanIsEnd okT scanFixture ⟨0, 0⟩) = some false ∧
    scanRidOf (scanNext okT scanFixture ⟨0, 0⟩) = some ⟨0, 2⟩ ∧
    scanEndOf (scanIsEnd okT scanFixture ⟨0, 2⟩) = some true ∧
    scanRidOf (scanNext okT scanFixture ⟨0, 2⟩) = some ⟨1, 1⟩ ∧
    bitGet ((scanFixture.pages.getD 1 default).bitmap) 1 = true :=
  ⟨by decide, by decide, by decide, by decide, by decide, by decide⟩

/-! ## Claim C10: null-handle access at the scan interface -/

/-- C10: for every scan position whose page number is inside
`[0, num_pages)` but whose page the buffer pool cannot supply (`ok` returns
`false`, e.g. every frame pinned), `RmScan::next` reads the slot bitmap
(as soon as its inner loop body runs, `slot_no < records_per_page - 1`)
and `RmScan::is_end` reads `page_hdr->num_records` through the empty
handle returned by `fetch_page_handle` without checking it: both null
dereferences are reachable at the public scan interface. -/
theorem scan_null_handle_deref {ok : Int → Bool} {s : RmFile} {r : Rid}
    (h0 : 0 ≤ r.page_no) (h1 : r.page_no < s.hdr.num_pages)
    (h2 : ok r.page_no = false)
    (h3 : r.slot_no < s.hdr.num_records_per_page - 1) :
    scanNext ok s r = .error () ∧ scanIsEnd ok s r = .error () := by
  have hfetch : fetchPageHandle ok s r.page_no = (none, s) := by
    unfold fetchPageHandle
    rw [if_neg (by omega), if_neg (by simp [h2])]
  constructor
  · unfold scanNext
    have hfuel : (s.hdr.num_pages - r.page_no).toNat
        = (s.hdr.num_pages - r.page_no - 1).toNat + 1 := by omega
    rw [hfuel]
    simp only [scanNextAux]
    rw [if_pos h1, hfetch]
    simp only [if_pos h3]
  · unfold scanIsEnd
    rw [if_neg (by omega), hfetch]

/-- Witness for C10: a one-page file, a fetch oracle that always fails
(buffer pool exhausted), and the scan constructor's initial position. -/
theorem scan_null_handle_deref_witness :
    scanNext (fun _ => false) (⟨⟨1, 2, 1, 0⟩, [⟨⟨-1, 1⟩, [true, false], [[9], [0]]⟩], [0]⟩ : RmFile) ⟨0, -1⟩ = .error () ∧
    scanIsEnd (fun _ => false) (⟨⟨1, 2, 1, 0⟩, [⟨⟨-1, 1⟩, [true, false], [[9], [0]]⟩], [0]⟩ : RmFile) ⟨0, -1⟩ = .error () :=
  scan_null_handle_deref (by decide) (by decide) (by decide) (by decide)

/-! ## Claim C2: insert/get round trip -/

theorem getD_mem {α : Type} {l : List α} {n : Nat} (d : α) (h : n < l.length) :
    l.getD n d ∈ l := by
  induction l generalizing n with
  | nil => simp at h
  | cons x t ih =>
    cases n with
    | zero => exact List.mem_cons_self _ _
    | succ m =>
      simp only [List.length_cons, Nat.succ_lt_succ_iff] at h
      exact List.mem_cons_of_mem _ (ih h)

/-- The slot returned by the `insert_record` bitmap scan is below capacity
and its bit is clear. -/
theorem firstUnset_spec {bm : List Bool} {cap : Int} {k : Nat}
    (h : firstUnset bm cap = some k) :
    (k : Int) < cap ∧ bm.getD k false = false := by
  unfold firstUnset at h
  have h1 := List.find?_some h
  have h2 := List.mem_range.mp (List.mem_of_find?_eq_some h)
  refine ⟨by omega, by simpa using h1⟩

/-- When the page reports itself full, `insert_record` returns the failure
rid. -/
theorem insertIntoPage_full {s1 : RmFile} {i : Nat} (buf : List Int)
    (hfu : firstUnset (s1.pages.getD i default).bitmap s1.hdr.num_records_per_page = none) :
    (insertIntoPage s1 i buf).1 = ⟨-1, -1⟩ := by
  simp only [insertIntoPage, hfu]

/-- Observable effect of the `insert_record` body once a free slot has
been found: the returned rid addresses that slot, the page is updated in
place, and the header fields other than `first_free_page_no` are kept. -/
theorem insertIntoPage_state {s1 : RmFile} {i : Nat} {slot : Nat} (buf : List Int)
    (hfu : firstUnset (s1.pages.getD i default).bitmap s1.hdr.num_records_per_page = some slot) :
    (insertIntoPage s1 i buf).1 = ⟨(i : Int), (slot : Int)⟩ ∧
    (insertIntoPage s1 i buf).2.pages = listSet s1.pages i
      { s1.pages.getD i default with
          slots := listSet (s1.pages.getD i default).slots slot
            (writeBytes ((s1.pages.getD i default).slots.getD slot []) buf s1.hdr.record_size)
          bitmap := listSet (s1.pages.getD i default).bitmap slot true
          hdr := { (s1.pages.getD i default).hdr with
                     num_records := (s1.pages.getD i default).hdr.num_records + 1 } } ∧
    (insertIntoPage s1 i buf).2.hdr.record_size = s1.hdr.record_size ∧
    (insertIntoPage s1 i buf).2.hdr.num_records_per_page = s1.hdr.num_records_per_page ∧
    (insertIntoPage s1 i buf).2.hdr.num_pages = s1.hdr.num_pages := by
  simp only [insertIntoPage, hfu]
  refine ⟨?_, ?_, ?_, ?_, ?_⟩ <;> first | trivial | (split <;> rfl)

/-- Core of the round trip: reading back the rid that the insert body
returned yields exactly the inserted payload. -/
theorem insertIntoPage_roundtrip {s1 : RmFile} {i slot : Nat} (buf : List Int)
    (hbuf : buf.length = s1.hdr.record_size)
    (hi : i < s1.pages.length)
    (hibound : (i : Int) < s1.hdr.num_pages)
    (hsl : (s1.pages.getD i default).slots.length = s1.hdr.num_records_per_page.toNat)
    (hfu : firstUnset (s1.pages.getD i default).bitmap s1.hdr.num_records_per_page = some slot) :
    (getRecord okT (insertIntoPage s1 i buf).2 (insertIntoPage s1 i buf).1).1 = some buf := by
  obtain ⟨hsltcap, _⟩ := firstUnset_spec hfu
  obtain ⟨hrid, hpg, hrs, hcap, hnp⟩ := insertIntoPage_state buf hfu
  rw [hrid]
  have hcond1 : ¬((i : Int) < 0 ∨ (insertIntoPage s1 i buf).2.hdr.num_pages ≤ (i : Int)) := by
    rw [hnp]; omega
  have hfh : fetchPageHandle okT (insertIntoPage s1 i buf).2 (i : Int)
      = (some i, { (insertIntoPage s1 i buf).2 with
                     pins := bumpPin (insertIntoPage s1 i buf).2.pins i }) := by
    unfold fetchPageHandle
    rw [if_neg hcond1]
    exact rfl
  have hcond2 : ¬((insertIntoPage s1 i buf).2.hdr.num_records_per_page ≤ ((slot : Nat) : Int)
      ∨ ((slot : Nat) : Int) < 0) := by
    rw [hcap]; omega
  simp only [getRecord, hfh, if_neg hcond2, Int.toNat_natCast]
  have hslots : slot < (s1.pages.getD i default).slots.length := by
    rw [hsl]; omega
  rw [hpg, getD_listSet_self _ _ _ _ hi, getD_listSet_self _ _ _ _ hslots, hrs]
  have h1 : (buf.take s1.hdr.record_size).length = s1.hdr.record_size := by
    rw [List.length_take]; omega
  unfold writeBytes
  rw [show ((buf.take s1.hdr.record_size)
        ++ ((s1.pages.getD i default).slots.getD slot []).drop s1.hdr.record_size).take s1.hdr.record_size
      = ((buf.take s1.hdr.record_size)
        ++ ((s1.pages.getD i default).slots.getD slot []).drop s1.hdr.record_size).take (buf.take s1.hdr.record_size).length from by rw [h1]]
  rw [List.take_left, ← hbuf, List.take_length]

/-- C2: for every payload of exactly `record_size` bytes, a successful
`insert_record(payload)` followed by `get_record` on the returned rid
yields bytes equal to the payload (starting from any well-formed file,
with the buffer pool able to supply pages). -/
theorem insert_get_roundtrip {s : RmFile} {buf : List Int} {r : Rid} {s2 : RmFile}
    (hwf : WF s) (hbuf : buf.length = s.hdr.record_size)
    (hins : insertRecord okT true s buf = .ok (r, s2))
    (hsucc : r ≠ ⟨-1, -1⟩) :
    (getRecord okT s2 r).1 = some buf := by
  obtain ⟨hnum, hff, hpages⟩ := hwf
  unfold insertRecord createPageHandle at hins
  by_cases hfree : s.hdr.first_free_page_no = RM_NO_PAGE
  · -- free-page list empty: a brand-new zeroed page is appended
    rw [if_pos hfree] at hins
    have hcnp : createNewPageHandle true s = (some s.pages.length,
      { s with hdr := { s.hdr with num_pages := s.hdr.num_pages + 1 }
               pages := s.pages ++
                 [{ hdr := { next_free_page_no := RM_NO_PAGE, num_records := 0 }
                    bitmap := List.replicate s.hdr.num_records_per_page.toNat false
                    slots := List.replicate s.hdr.num_records_per_page.toNat
                      (List.replicate s.hdr.record_size 0) }]
               pins := s.pins ++ [1] }) := rfl
    rw [hcnp] at hins
    simp only [Except.ok.injEq] at hins
    have hr : (insertIntoPage
        { s with hdr := { s.hdr with num_pages := s.hdr.num_pages + 1 }
                 pages := s.pages ++
                   [{ hdr := { next_free_page_no := RM_NO_PAGE, num_records := 0 }
                      bitmap := List.replicate s.hdr.num_records_per_page.toNat false
                      slots := List.replicate s.hdr.num_records_per_page.toNat
                        (List.replicate s.hdr.record_size 0) }]
                 pins := s.pins ++ [1] } s.pages.length buf).1 = r := by rw [hins]
    have hs : (insertIntoPage
        { s with hdr := { s.hdr with num_pages := s.hdr.num_pages + 1 }
                 pages := s.pages ++
                   [{ hdr := { next_free_page_no := RM_NO_PAGE, num_records := 0 }
                      bitmap := List.replicate s.hdr.num_records_per_page.toNat false
                      slots := List.replicate s.hdr.num_records_per_page.toNat
                        (List.replicate s.hdr.record_size 0) }]
                 pins := s.pins ++ [1] } s.pages.length buf).2 = s2 := by rw [hins]
    rw [← hr, ← hs]
    cases hfu : firstUnset
        (({ s with hdr := { s.hdr with num_pages := s.hdr.num_pages + 1 }
                   pages := s.pages ++
                     [{ hdr := { next_free_page_no := RM_NO_PAGE, num_records := 0 }
                        bitmap := List.replicate s.hdr.num_records_per_page.toNat false
                        slots := List.replicate s.hdr.num_records_per_page.toNat
                          (List.replicate s.hdr.record_size 0) }]
                   pins := s.pins ++ [1] } : RmFile).pages.getD s.pages.length default).bitmap
        s.hdr.num_records_per_page with
    | none =>
      exact absurd (hr ▸ insertIntoPage_full buf hfu) hsucc
    | some slot =>
      apply insertIntoPage_roundtrip buf
      · exact hbuf
      · show s.pages.length < (s.pages ++ [_]).length
        rw [List.length_append]
        simp
      · show ((s.pages.length : Nat) : Int) < s.hdr.num_pages + 1
        omega
      · show ((s.pages ++ [_]).getD s.pages.length default).slots.length
            = s.hdr.num_records_per_page.toNat
        rw [getD_append_length]
        exact List.length_replicate _ _
      · exact hfu
  · -- take the head of the free-page list
    rw [if_neg hfree] at hins
    rcases hff with hff1 | ⟨hge, hlt⟩
    · exact absurd hff1 hfree
    have hfh : fetchPageHandle okT s s.hdr.first_free_page_no
        = (some s.hdr.first_free_page_no.toNat,
           { s with pins := bumpPin s.pins s.hdr.first_free_page_no.toNat }) := by
      unfold fetchPageHandle
      rw [if_neg (by omega)]
      exact rfl
    rw [hfh] at hins
    simp only [Except.ok.injEq] at hins
    have hr : (insertIntoPage { s with pins := bumpPin s.pins s.hdr.first_free_page_no.toNat }
        s.hdr.first_free_page_no.toNat buf).1 = r := by rw [hins]
    have hs : (insertIntoPage { s with pins := bumpPin s.pins s.hdr.first_free_page_no.toNat }
        s.hdr.first_free_page_no.toNat buf).2 = s2 := by rw [hins]
    rw [← hr, ← hs]
    have hi : s.hdr.first_free_page_no.toNat < s.pages.length := by omega
    cases hfu : firstUnset
        (({ s with pins := bumpPin s.pins s.hdr.first_free_page_no.toNat } : RmFile).pages.getD
          s.hdr.first_free_page_no.toNat default).bitmap
        s.hdr.num_records_per_page with
    | none =>
      exact absurd (hr ▸ insertIntoPage_full buf hfu) hsucc
    | some slot =>
      apply insertIntoPage_roundtrip buf
      · exact hbuf
      · exact hi
      · show ((s.hdr.first_free_page_no.toNat : Nat) : Int) < s.hdr.num_pages
        omega
      · show (s.pages.getD s.hdr.first_free_page_no.toNat default).slots.length
            = s.hdr.num_records_per_page.toNat
        exact (hpages _ (getD_mem default hi)).2.1
      · exact hfu

/-- Witness for C2: inserting the two-byte payload `[5, 6]` into the empty
file with `record_size = 2` and reading the returned rid back. -/
theorem insert_get_roundtrip_witness :
    (getRecord okT (insOut (insertRecord okT true (emptyRm 2 2) [5, 6])).2
        (insOut (insertRecord okT true (emptyRm 2 2) [5, 6])).1).1 = some [5, 6] :=
  insert_get_roundtrip (s := emptyRm 2 2)
    ⟨rfl, Or.inl rfl, fun pg hpg => absurd hpg (List.not_mem_nil pg)⟩ (by decide) rfl (by decide)

/-! ## Claim C6 (amended): `num_records` equals the bitmap population count
for runs whose deletes target occupied slots -/

theorem listSet_listSet {α : Type} (l : List α) (n : Nat) (a b : α) :
    listSet (listSet l n a) n b = listSet l n b := by
  induction l generalizing n with
  | nil => rfl
  | cons x t ih =>
    cases n with
    | zero => rfl
    | succ m => simp [listSet, ih]

theorem count_true_replicate_false (n : Nat) :
    (List.replicate n false).count true = 0 := by
  induction n with
  | zero => rfl
  | succ m ih => simp [List.replicate_succ, List.count_cons, ih]

/-- A full page makes the insert body a no-op on the file state. -/
theorem insertIntoPage_full_state {s1 : RmFile} {i : Nat} (buf : List Int)
    (hfu : firstUnset (s1.pages.getD i default).bitmap s1.hdr.num_records_per_page = none) :
    (insertIntoPage s1 i buf).2 = s1 := by
  simp only [insertIntoPage, hfu]

/-- The insert body preserves the capacity-accounting invariant. -/
theorem recordCountInv_insertIntoPage {s1 : RmFile} {i : Nat} (buf : List Int)
    (h : RecordCountInv s1) (hi : i < s1.pages.length) :
    RecordCountInv (insertIntoPage s1 i buf).2 := by
  obtain ⟨hnum, hpages⟩ := h
  cases hfu : firstUnset (s1.pages.getD i default).bitmap s1.hdr.num_records_per_page with
  | none => rw [insertIntoPage_full_state buf hfu]; exact ⟨hnum, hpages⟩
  | some slot =>
    obtain ⟨hsltcap, hbit⟩ := firstUnset_spec hfu
    obtain ⟨_, hpg, _, hcap, hnp⟩ := insertIntoPage_state buf hfu
    have hmem := getD_mem (l := s1.pages) default hi
    obtain ⟨hbmlen, hcount⟩ := hpages _ hmem
    constructor
    · rw [hnp, hpg, length_listSet]
      exact hnum
    · intro pg hpg2
      rw [hpg] at hpg2
      rw [hcap]
      rcases mem_listSet hpg2 with h1 | h1
      · subst h1
        have hsltlen : slot < (s1.pages.getD i default).bitmap.length := by
          rw [hbmlen]; omega
        constructor
        · show (listSet (s1.pages.getD i default).bitmap slot true).length = _
          rw [length_listSet]
          exact hbmlen
        · show (s1.pages.getD i default).hdr.num_records + 1
            = ((listSet (s1.pages.getD i default).bitmap slot true).count true : Int)
          rw [count_true_listSet_of_false hsltlen hbit, hcount]
          push_cast
          ring
      · exact hpages pg h1

/-- `create_new_page_handle` (insert with an empty free-page list)
preserves the capacity-accounting invariant. -/
theorem recordCountInv_insert {s : RmFile} {buf : List Int} {r : Rid} {s' : RmFile}
    (h : RecordCountInv s)
    (hins : insertRecord okT true s buf = .ok (r, s')) :
    RecordCountInv s' := by
  obtain ⟨hnum, hpages⟩ := h
  unfold insertRecord createPageHandle at hins
  by_cases hfree : s.hdr.first_free_page_no = RM_NO_PAGE
  · rw [if_pos hfree] at hins
    have hcnp : createNewPageHandle true s = (some s.pages.length,
      { s with hdr := { s.hdr with num_pages := s.hdr.num_pages + 1 }
               pages := s.pages ++
                 [{ hdr := { next_free_page_no := RM_NO_PAGE, num_records := 0 }
                    bitmap := List.replicate s.hdr.num_records_per_page.toNat false
                    slots := List.replicate s.hdr.num_records_per_page.toNat
                      (List.replicate s.hdr.record_size 0) }]
               pins := s.pins ++ [1] }) := rfl
    rw [hcnp] at hins
    simp only [Except.ok.injEq] at hins
    have hs : (insertIntoPage
        { s with hdr := { s.hdr with num_pages := s.hdr.num_pages + 1 }
                 pages := s.pages ++
                   [{ hdr := { next_free_page_no := RM_NO_PAGE, num_records := 0 }
                      bitmap := List.replicate s.hdr.num_records_per_page.toNat false
                      slots := List.replicate s.hdr.num_records_per_page.toNat
                        (List.replicate s.hdr.record_size 0) }]
                 pins := s.pins ++ [1] } s.pages.length buf).2 = s' := by rw [hins]
    rw [← hs]
    apply recordCountInv_insertIntoPage buf
    · constructor
      · show s.hdr.num_pages + 1 = ((s.pages ++ [_]).length : Int)
        rw [List.length_append, List.length_singleton]
        push_cast
        omega
      · intro pg hpg
        rcases List.mem_append.mp hpg with h1 | h1
        · exact hpages pg h1
        · rw [List.mem_singleton.mp h1]
          refine ⟨List.length_replicate _ _, ?_⟩
          show (0 : Int) = ((List.replicate s.hdr.num_records_per_page.toNat false).count true : Int)
          rw [count_true_replicate_false]
          rfl
    · show s.pages.length < (s.pages ++ [_]).length
      rw [List.length_append]
      simp
  · rw [if_neg hfree] at hins
    by_cases hrange : (s.hdr.first_free_page_no < 0 ∨ s.hdr.num_pages ≤ s.hdr.first_free_page_no)
    · have hfh : fetchPageHandle okT s s.hdr.first_free_page_no = (none, s) := by
        unfold fetchPageHandle
        rw [if_pos hrange]
      rw [hfh] at hins
      simp at hins
    · have hfh : fetchPageHandle okT s s.hdr.first_free_page_no
          = (some s.hdr.first_free_page_no.toNat,
             { s with pins := bumpPin s.pins s.hdr.first_free_page_no.toNat }) := by
        unfold fetchPageHandle
        rw [if_neg hrange]
        exact rfl
      rw [hfh] at hins
      simp only [Except.ok.injEq] at hins
      have hs : (insertIntoPage { s with pins := bumpPin s.pins s.hdr.first_free_page_no.toNat }
          s.hdr.first_free_page_no.toNat buf).2 = s' := by rw [hins]
      rw [← hs]
      apply recordCountInv_insertIntoPage buf
      · exact ⟨hnum, hpages⟩
      · show s.hdr.first_free_page_no.toNat < s.pages.length
        omega

/-- `delete_record` on an out-of-range page number is a no-op. -/
theorem deleteRecord_out_of_range {ok : Int → Bool} {s : RmFile} {rid : Rid}
    (h : rid.page_no < 0 ∨ s.hdr.num_pages ≤ rid.page_no) :
    deleteRecord ok s rid = s := by
  unfold deleteRecord fetchPageHandle
  rw [if_pos h]

/-- The delete body past the slot capacity is a no-op. -/
theorem deleteFromPage_slot_out (s1 : RmFile) (i : Nat) (rid : Rid)
    (hcap : s1.hdr.num_records_per_page ≤ rid.slot_no) :
    deleteFromPage s1 i rid = s1 := by
  unfold deleteFromPage
  rw [if_pos hcap]

/-- Observable effect of the in-range delete body on the page list and
header: the page gets its bit cleared and its count decremented; the
free-list re-link touches neither. -/
theorem deleteFromPage_spec (s1 : RmFile) (i : Nat) (rid : Rid)
    (hcap : ¬s1.hdr.num_records_per_page ≤ rid.slot_no) :
    ∃ pg', (deleteFromPage s1 i rid).pages = listSet s1.pages i pg' ∧
      pg'.bitmap = bitReset (s1.pages.getD i default).bitmap rid.slot_no ∧
      pg'.hdr.num_records = (s1.pages.getD i default).hdr.num_records - 1 ∧
      (deleteFromPage s1 i rid).hdr.num_records_per_page = s1.hdr.num_records_per_page ∧
      (deleteFromPage s1 i rid).hdr.num_pages = s1.hdr.num_pages := by
  unfold deleteFromPage
  rw [if_neg hcap]
  simp only []
  by_cases hrel : (s1.pages.getD i default).hdr.num_records - 1
      = s1.hdr.num_records_per_page - 1
  · rw [if_pos hrel]
    exact ⟨_, listSet_listSet _ _ _ _, rfl, rfl, rfl, rfl⟩
  · rw [if_neg hrel]
    exact ⟨_, rfl, rfl, rfl, rfl, rfl⟩

/-- `delete_record` restricted to occupied slots preserves the
capacity-accounting invariant. -/
theorem recordCountInv_delete {s : RmFile} (rid : Rid)
    (h : RecordCountInv s) (hslot0 : 0 ≤ rid.slot_no)
    (hbit : bitGet ((s.pages.getD rid.page_no.toNat default).bitmap) rid.slot_no = true) :
    RecordCountInv (deleteRecord okT s rid) := by
  obtain ⟨hnum, hpages⟩ := h
  by_cases hrange : (rid.page_no < 0 ∨ s.hdr.num_pages ≤ rid.page_no)
  · rw [deleteRecord_out_of_range hrange]
    exact ⟨hnum, hpages⟩
  · have hfh : fetchPageHandle okT s rid.page_no
        = (some rid.page_no.toNat, { s with pins := bumpPin s.pins rid.page_no.toNat }) := by
      unfold fetchPageHandle
      rw [if_neg hrange]
      exact rfl
    unfold deleteRecord
    rw [hfh]
    show RecordCountInv (deleteFromPage
      { s with pins := bumpPin s.pins rid.page_no.toNat } rid.page_no.toNat rid)
    by_cases hcap : s.hdr.num_records_per_page ≤ rid.slot_no
    · rw [deleteFromPage_slot_out
        { s with pins := bumpPin s.pins rid.page_no.toNat } rid.page_no.toNat rid hcap]
      exact ⟨hnum, hpages⟩
    · obtain ⟨pg', hpg, hbm, hnr, hcap2, hnp2⟩ :=
        deleteFromPage_spec { s with pins := bumpPin s.pins rid.page_no.toNat }
          rid.page_no.toNat rid hcap
      have hi : rid.page_no.toNat < s.pages.length := by omega
      have hmem := getD_mem (l := s.pages) default hi
      obtain ⟨hbmlen, hcount⟩ := hpages _ hmem
      have hget : (s.pages.getD rid.page_no.toNat default).bitmap.getD rid.slot_no.toNat false
          = true := by
        unfold bitGet at hbit
        rw [if_pos hslot0] at hbit
        exact hbit
      have hcnt := count_true_listSet_of_true hget
      constructor
      · rw [hnp2, hpg, length_listSet]
        exact hnum
      · intro pg hpgm
        rw [hpg] at hpgm
        rw [hcap2]
        rcases mem_listSet hpgm with h1 | h1
        · subst h1
          constructor
          · rw [hbm]
            unfold bitReset
            rw [if_pos hslot0, length_listSet]
            exact hbmlen
          · rw [hnr, hbm]
            unfold bitReset
            rw [if_pos hslot0]
            show (s.pages.getD rid.page_no.toNat default).hdr.num_records - 1
              = ((listSet (s.pages.getD rid.page_no.toNat default).bitmap
                    rid.slot_no.toNat false).count true : Int)
            rw [hcount]
            omega
        · exact hpages pg h1

/-- Every state reachable by `insert_record` and occupied-slot
`delete_record` calls satisfies the capacity-accounting invariant. -/
theorem rmReach_recordCountInv {rs : Nat} {cap : Int} {s : RmFile}
    (h : RmReach rs cap s) : RecordCountInv s := by
  induction h with
  | init => exact ⟨rfl, fun pg hpg => absurd hpg (List.not_mem_nil pg)⟩
  | step_ins buf _ hins ih => exact recordCountInv_insert ih hins
  | step_del rid _ hslot0 hbit ih => exact recordCountInv_delete rid ih hslot0 hbit

/-- C6 amended: for every sequence of `insert_record` and `delete_record`
calls from an empty file in which every `delete_record` targets an
occupied slot (a nonnegative slot number whose bitmap bit is set), each
page's `num_records` field always equals the number of set bits in that
page's slot bitmap. -/
theorem num_records_matches_popcount {rs : Nat} {cap : Int} {s : RmFile}
    (h : RmReach rs cap s) :
    ∀ pg ∈ s.pages, pg.hdr.num_records = pg.bitmap.count true :=
  fun pg hpg => ((rmReach_recordCountInv h).2 pg hpg).2

/-- Witness for the amended C6: the one-insert run on the empty file with
capacity 2. -/
theorem num_records_matches_popcount_witness :
    ((insOut (insertRecord okT true (emptyRm 1 2) [7])).2.pages.getD 0 default).hdr.num_records
      = (((insOut (insertRecord okT true (emptyRm 1 2) [7])).2.pages.getD 0 default).bitmap.count true : Int) :=
  by
  have h : RmReach 1 2 (insOut (insertRecord okT true (emptyRm 1 2) [7])).2 :=
    RmReach.step_ins [7] RmReach.init rfl
  exact num_records_matches_popcount h _ (by decide)

end RmdbVerify
